import Mathlib

/-!
A shallow embedding of the graph-construction, pruning, community-detection and
alpha-decay logic of the citation/collaboration network front-end, together
with theorems settling the specification claims.

JS strings are modelled as Lean `String`, JS numbers appearing as integers as
`Int`/`Nat`, `parseInt` as an `Option Int`-valued parser (with `none` playing
the role of `NaN`), JS `Map`/`Set` as association lists / duplicate-free lists
preserving insertion order, and `Array.prototype.sort` (stable, comparator
driven) as `List.mergeSort`.
-/

namespace CitationViz

/-! ### JS string primitives -/

/-- Whitespace predicate used by `String.prototype.trim`. -/
def isWS (c : Char) : Bool := c.isWhitespace

/-- Remove leading and trailing whitespace from a character list. -/
def trimList (l : List Char) : List Char :=
  ((l.dropWhile isWS).reverse.dropWhile isWS).reverse

/-- Model of `String.prototype.trim`. -/
def jsTrim (s : String) : String := ⟨trimList s.data⟩

/-- Numeric value of a decimal digit character. -/
def digitVal (c : Char) : Nat := c.toNat - '0'.toNat

/-- Accumulate a decimal digit list into a natural number. -/
def digitsToNat (l : List Char) : Nat := l.foldl (fun acc c => acc * 10 + digitVal c) 0

/-- Model of JS `parseInt(s, 10)`: skip whitespace, optional sign, then a
maximal run of decimal digits (trailing junk ignored); `none` models `NaN`. -/
def parseIntJS (s : String) : Option Int :=
  match (jsTrim s).data with
  | [] => none
  | c :: rest =>
    let signed : Int × List Char :=
      if c = '-' then (-1, rest) else if c = '+' then (1, rest) else (1, c :: rest)
    let ds := signed.2.takeWhile Char.isDigit
    if ds.isEmpty then none else some (signed.1 * (digitsToNat ds : Int))

/-- Model of JS `s.slice(-n)`: the last `n` characters (whole string if shorter). -/
def sliceLast (s : String) (n : Nat) : String := ⟨(s.data.reverse.take n).reverse⟩

/-! ### JS collection primitives (insertion-order maps and sets) -/

/-- JS `Set.prototype.add`: append if not already present. -/
def setAdd (l : List String) (x : String) : List String := if x ∈ l then l else l ++ [x]

/-- Append a key to a duplicate-free key list if absent (JS `Map.set` on a new key). -/
def insertUnique (l : List String) (x : String) : List String :=
  if x ∈ l then l else l ++ [x]

/-- JS `Map.prototype.set`: replace the value at an existing key in place,
otherwise append the binding. -/
def mapSet {α : Type} (m : List (String × α)) (k : String) (v : α) : List (String × α) :=
  match m with
  | [] => [(k, v)]
  | (k', v') :: rest => if k' = k then (k, v) :: rest else (k', v') :: mapSet rest k v

/-- Update the value stored at the first occurrence of a key. -/
def updateFirst {α : Type} (m : List (String × α)) (k : String) (f : α → α) :
    List (String × α) :=
  match m with
  | [] => []
  | (k', v) :: rest => if k' = k then (k', f v) :: rest else (k', v) :: updateFirst rest k f

/-! ### Citation CSV records (`refs_yeshiva_cs_20_25.csv`) -/

/-- One raw CSV row of the citation source (`RefCsvData` in `BaseNetwork.tsx`). -/
structure RefCsvData where
  citing_paperid : String
  cited_paperid : String
  year : String
  ref_year : String
  year_diff : String
deriving DecidableEq, Repr

/-- Year plausibility window used by `BaseNetwork.fetchAndParseData`. -/
def inYearRange (y : Int) : Bool := decide (2020 ≤ y) && decide (y ≤ 2025)

/-- Row validation of `BaseNetwork.fetchAndParseData` (lines 82-103): ids
non-empty after trimming, both years parse into [2020, 2025], and the year
difference (defaulting to `"0"` when blank) parses into [-5, 10]. -/
def isValidRef (row : RefCsvData) : Bool :=
  let citingId := jsTrim row.citing_paperid
  let citedId := jsTrim row.cited_paperid
  let yearsOk :=
    match parseIntJS row.year, parseIntJS row.ref_year with
    | some cy, some ry => inYearRange cy && inYearRange ry
    | _, _ => false
  let ydStr := if jsTrim row.year_diff = "" then "0" else jsTrim row.year_diff
  let diffOk :=
    match parseIntJS ydStr with
    | some d => decide (-5 ≤ d) && decide (d ≤ 10)
    | none => false
  !(citingId = "") && !(citedId = "") && yearsOk && diffOk

/-- The deduplicated paper-id list: a JS `Set` filled with the trimmed citing
then cited id of each valid row, read back in insertion order. -/
def uniquePaperIds (rows : List RefCsvData) : List String :=
  rows.foldl
    (fun acc row =>
      insertUnique (insertUnique acc (jsTrim row.citing_paperid)) (jsTrim row.cited_paperid))
    []

/-- A node of the citation network (`NetworkNode` in `BaseNetwork.tsx`). -/
structure NetworkNode where
  id : String
  name : String
  institution : String
  publish_year : Int
  citation_count : Nat
  paperid : String
deriving DecidableEq, Repr

/-- Citation count of a paper id: the number of valid rows whose trimmed
`cited_paperid` equals it. -/
def citationCount (rows : List RefCsvData) (id : String) : Nat :=
  (rows.filter (fun row => jsTrim row.cited_paperid == id)).length

/-- Publication year derivation of `BaseNetwork.fetchAndParseData` (lines
119-124): the parsed `year` of the first row citing this id, otherwise the
parsed `ref_year` of the first row citing it, otherwise 2020.  `getD 0` stands
in for a `NaN` that cannot arise on validated rows. -/
def publishYear (rows : List RefCsvData) (id : String) : Int :=
  match rows.find? (fun row => jsTrim row.citing_paperid == id) with
  | some r => (parseIntJS r.year).getD 0
  | none =>
    match rows.find? (fun row => jsTrim row.cited_paperid == id) with
    | some r => (parseIntJS r.ref_year).getD 0
    | none => 2020

/-- Build one citation-network node for a paper id (lines 115-134). -/
def mkNode (rows : List RefCsvData) (id : String) : NetworkNode :=
  { id := jsTrim id
    name := "Paper_" ++ sliceLast (jsTrim id) 6
    institution := "Yeshiva University"
    publish_year := publishYear rows id
    citation_count := citationCount rows id
    paperid := jsTrim id }

/-- The full node set of the Graph Builder: one node per unique paper id. -/
def buildNodes (rows : List RefCsvData) : List NetworkNode :=
  (uniquePaperIds rows).map (mkNode rows)

/-- An edge of the citation network (`NetworkLink` in `BaseNetwork.tsx`),
with endpoints as keys as at construction time. -/
structure NetworkLink where
  source : String
  target : String
  value : Nat
  citing_year : Int
  cited_year : Int
  year_diff : Int
deriving DecidableEq, Repr

/-- Build the edge of one valid row (lines 138-145).  `getD 0` stands in for
`NaN` (possible for `year_diff` when the field is blank, since validation
defaults a blank difference to 0 but edge construction re-parses the raw field). -/
def mkLink (row : RefCsvData) : NetworkLink :=
  { source := jsTrim row.citing_paperid
    target := jsTrim row.cited_paperid
    value := 1
    citing_year := (parseIntJS row.year).getD 0
    cited_year := (parseIntJS row.ref_year).getD 0
    year_diff := (parseIntJS row.year_diff).getD 0 }

/-- The full edge set: one edge per valid row, in order. -/
def buildLinks (rows : List RefCsvData) : List NetworkLink :=
  rows.map mkLink

/-- Comparator order of `sort((a, b) => b.citation_count - a.citation_count)`:
`a` may precede `b` when `b.citation_count ≤ a.citation_count`. -/
def nodeDescLE (a b : NetworkNode) : Bool := b.citation_count ≤ a.citation_count

/-- Stable descending sort by citation count (JS `Array.prototype.sort` is
stable and comparator-consistent; `List.mergeSort` is the same function). -/
def sortNodesByCitations (nodes : List NetworkNode) : List NetworkNode :=
  nodes.mergeSort nodeDescLE

/-- The displayed node list of the size-bounding / pruning step of
`BaseNetwork.fetchAndParseData` (lines 147-150): sort descending by citation
count, keep the first `min maxNodes length` nodes, and fall back to the single
top node when that prefix is empty. -/
def pruneBaseNodes (nodes : List NetworkNode) (maxNodes : Nat) : List NetworkNode :=
  let sortedNodes := sortNodesByCitations nodes
  let limitedNodes := sortedNodes.take (min maxNodes sortedNodes.length)
  if limitedNodes.length > 0 then limitedNodes else sortedNodes.take 1

/-- The displayed edge list (lines 151-158): keep only edges whose both
endpoint keys appear among the displayed node ids. -/
def pruneBaseLinks (nodes : List NetworkNode) (links : List NetworkLink) (maxNodes : Nat) :
    List NetworkLink :=
  let limitedNodeIds := (pruneBaseNodes nodes maxNodes).map (fun n => n.id)
  links.filter
    (fun link => limitedNodeIds.contains link.source && limitedNodeIds.contains link.target)

/-- The whole size-bounding / pruning step (lines 147-158). -/
def pruneBase (nodes : List NetworkNode) (links : List NetworkLink) (maxNodes : Nat) :
    List NetworkNode × List NetworkLink :=
  (pruneBaseNodes nodes maxNodes, pruneBaseLinks nodes links maxNodes)

/-- The whole data pipeline of `BaseNetwork.fetchAndParseData` after a
successful fetch: validate rows, build the graph, prune it. -/
def fetchAndParseData (rows : List RefCsvData) (maxNodes : Nat) :
    List NetworkNode × List NetworkLink :=
  let validData := rows.filter isValidRef
  pruneBase (buildNodes validData) (buildLinks validData) maxNodes

/-! ### Affiliation CSV records and the collaboration network
(`AuthorCollabNetwork` in the sources) -/

/-- One raw CSV row of the affiliation source (`AffilCsvData`). -/
structure AffilCsvData where
  paperid : String
  author_position : String
  authorid : String
  institutionid : String
  raw_affiliation_string : String
deriving DecidableEq, Repr

/-- Row validation of `AuthorCollabNetwork.fetchAndParseData`: paper id,
author id, institution id and author position non-empty after trimming
(`raw_affiliation_string` is not checked). -/
def isValidAffil (row : AffilCsvData) : Bool :=
  !(jsTrim row.paperid = "") && !(jsTrim row.authorid = "") &&
  !(jsTrim row.institutionid = "") && !(jsTrim row.author_position = "")

/-- Ensure a key has an entry, then push the value onto it unless present
(the `if (!map.has(k)) map.set(k, []); if (!map.get(k).includes(v)) push(v)`
idiom building the author→papers and paper→authors indices). -/
def addTo (m : List (String × List String)) (k v : String) : List (String × List String) :=
  match m with
  | [] => [(k, [v])]
  | (k', vs) :: rest => if k' = k then (k', setAdd vs v) :: rest else (k', vs) :: addTo rest k v

/-- The author → participated-papers index (insertion order, deduplicated). -/
def authorPaperMap (rows : List AffilCsvData) : List (String × List String) :=
  rows.foldl (fun m row => addTo m (jsTrim row.authorid) (jsTrim row.paperid)) []

/-- The paper → authors index (insertion order, deduplicated). -/
def paperAuthorMap (rows : List AffilCsvData) : List (String × List String) :=
  rows.foldl (fun m row => addTo m (jsTrim row.paperid) (jsTrim row.authorid)) []

/-- A node of the collaboration network: the tagged union of author nodes
(`id = author_<authorid>`, importance = paper count) and paper nodes
(`id = paper_<paperid>`, importance = author count). -/
inductive CollabNode where
  | author (id authorid institutionid : String) (paper_count : Nat) (name : String)
  | paper (id paperid : String) (author_count : Nat) (name : String)
deriving DecidableEq, Repr

/-- The institution of an author: the trimmed institution id of the first
valid record mentioning the author, defaulting to `"default"`. -/
def authorInstitution (rows : List AffilCsvData) (authorId : String) : String :=
  match rows.find? (fun r => jsTrim r.authorid == authorId) with
  | some r => if jsTrim r.institutionid = "" then "default" else jsTrim r.institutionid
  | none => "default"

/-- All collaboration-network nodes: author nodes (from the author index) then
paper nodes (from the paper index). -/
def buildCollabNodes (rows : List AffilCsvData) : List CollabNode :=
  (authorPaperMap rows).map
    (fun e => CollabNode.author ("author_" ++ e.1) e.1 (authorInstitution rows e.1)
      e.2.length ("Author_" ++ sliceLast e.1 6))
  ++ (paperAuthorMap rows).map
    (fun e => CollabNode.paper ("paper_" ++ e.1) e.1 e.2.length ("Paper_" ++ sliceLast e.1 6))

/-- A link of the collaboration network: author→paper authorship links and
author–author collaboration links. -/
inductive CollabLink where
  | authorPaper (source target paperid author_position : String) (value : Nat)
  | authorAuthor (source target : String) (collaboration_count : Nat) (paper_ids : List String)
deriving DecidableEq, Repr

/-- The ordered index pairs `i < j` of the nested loop over a paper's author
list, in iteration order. -/
def orderedPairs : List String → List (String × String)
  | [] => []
  | a :: rest => rest.map (fun b => (a, b)) ++ orderedPairs rest

/-- Lexicographic (code-unit) order on character lists, as JS string
comparison uses. -/
def charListLE : List Char → List Char → Bool
  | [], _ => true
  | _ :: _, [] => false
  | a :: as, b :: bs => if a = b then charListLE as bs else decide (a < b)

/-- JS `a <= b` on strings: lexicographic comparison of the characters. -/
def strLE (a b : String) : Bool := charListLE a.data b.data

/-- JS `[a, b].sort()` on two strings: default lexicographic comparison. -/
def sortPair (a b : String) : String × String := if strLE a b then (a, b) else (b, a)

/-- The canonical key of an unordered author pair: `[a1, a2].sort().join('-')`. -/
def collabKey (a b : String) : String :=
  (sortPair a b).1 ++ "-" ++ (sortPair a b).2

/-- Accumulated collaboration data per pair key: a count and a JS `Set` of
paper ids (insertion order, deduplicated). -/
structure CollabAgg where
  count : Nat
  papers : List String
deriving DecidableEq, Repr

/-- One `authorCollabMap` update: ensure the key has an entry, bump its count
and add the paper id to its paper set. -/
def collabBump (m : List (String × CollabAgg)) (key pid : String) :
    List (String × CollabAgg) :=
  let m1 := if (m.lookup key).isSome then m else m ++ [(key, ⟨0, []⟩)]
  updateFirst m1 key (fun c => ⟨c.count + 1, setAdd c.papers pid⟩)

/-- The `authorCollabMap`: for every paper of the paper→authors index, every
ordered author pair bumps its canonical key. -/
def collabMapOfPapers (papers : List (String × List String)) : List (String × CollabAgg) :=
  papers.foldl
    (fun m e => (orderedPairs e.2).foldl (fun m' pr => collabBump m' (collabKey pr.1 pr.2) e.1) m)
    []

/-- JS `String.prototype.split` with a one-character separator. -/
def splitCharAux (c : Char) : List Char → List Char → List (List Char)
  | [], acc => [acc.reverse]
  | x :: xs, acc =>
    if x = c then acc.reverse :: splitCharAux c xs [] else splitCharAux c xs (x :: acc)

/-- JS `s.split(c)` for a single-character separator `c`. -/
def jsSplit (c : Char) (s : String) : List String :=
  (splitCharAux c s.data []).map (fun l => ⟨l⟩)

/-- Convert one `authorCollabMap` entry into an author–author link: the key is
split on `'-'` and the first two parts become the endpoint author ids. -/
def mkAuthorAuthorLink (key : String) (agg : CollabAgg) : CollabLink :=
  CollabLink.authorAuthor ("author_" ++ (jsSplit '-' key).getD 0 "")
    ("author_" ++ (jsSplit '-' key).getD 1 "") agg.count agg.papers

/-- All author–author collaboration links of a paper→authors index. -/
def authorAuthorLinksOfPapers (papers : List (String × List String)) : List CollabLink :=
  (collabMapOfPapers papers).map (fun e => mkAuthorAuthorLink e.1 e.2)

/-- All author→paper authorship links (one per valid record, in order). -/
def authorPaperLinksOfRows (rows : List AffilCsvData) : List CollabLink :=
  rows.map (fun r => CollabLink.authorPaper ("author_" ++ jsTrim r.authorid)
    ("paper_" ++ jsTrim r.paperid) (jsTrim r.paperid) (jsTrim r.author_position) 1)

/-- The combined link list (`allLinks`). -/
def buildCollabLinks (rows : List AffilCsvData) : List CollabLink :=
  authorPaperLinksOfRows rows ++ authorAuthorLinksOfPapers (paperAuthorMap rows)

/-- Node key accessor. -/
def collabNodeId : CollabNode → String
  | .author id _ _ _ _ => id
  | .paper id _ _ _ => id

/-- Discriminant of the tagged union. -/
def isAuthorNode : CollabNode → Bool
  | .author _ _ _ _ _ => true
  | .paper _ _ _ _ => false

/-- Importance metric of an author node (`paper_count`). -/
def authorImportance : CollabNode → Nat
  | .author _ _ _ pc _ => pc
  | .paper _ _ _ _ => 0

/-- Importance metric of a paper node (`author_count`). -/
def paperImportance : CollabNode → Nat
  | .author _ _ _ _ _ => 0
  | .paper _ _ ac _ => ac

/-- Endpoint accessors of a collaboration-network link. -/
def collabLinkSource : CollabLink → String
  | .authorPaper s _ _ _ _ => s
  | .authorAuthor s _ _ _ => s

def collabLinkTarget : CollabLink → String
  | .authorPaper _ t _ _ _ => t
  | .authorAuthor _ t _ _ => t

/-- The displayed node list of the collaboration pruning step (part_001 lines
506-519): split by kind, sort each kind descending by its own importance,
take `floor(maxNodes * 0.7)` authors and the remaining budget in papers, and
concatenate.  (`maxNodes * 7 / 10` models `Math.floor(maxNodes * 0.7)`; at the
claimed budget 10 the double product `10 * 0.7` is exactly 7.) -/
def pruneCollabNodes (nodes : List CollabNode) (maxNodes : Nat) : List CollabNode :=
  let authorNodes := nodes.filter isAuthorNode
  let paperNodes := nodes.filter (fun n => !isAuthorNode n)
  let sortedAuthors := authorNodes.mergeSort (fun a b => authorImportance b ≤ authorImportance a)
  let sortedPapers := paperNodes.mergeSort (fun a b => paperImportance b ≤ paperImportance a)
  let authorQuota := maxNodes * 7 / 10
  let paperQuota := maxNodes - authorQuota
  sortedAuthors.take authorQuota ++ sortedPapers.take paperQuota

/-- The displayed link list (part_001 lines 521-526): keep only links whose
both endpoints appear among the displayed node ids. -/
def pruneCollabLinks (nodes : List CollabNode) (links : List CollabLink) (maxNodes : Nat) :
    List CollabLink :=
  let limitedNodeIds := (pruneCollabNodes nodes maxNodes).map collabNodeId
  links.filter (fun l =>
    limitedNodeIds.contains (collabLinkSource l) && limitedNodeIds.contains (collabLinkTarget l))

/-- The whole collaboration pruning step. -/
def pruneCollab (nodes : List CollabNode) (links : List CollabLink) (maxNodes : Nat) :
    List CollabNode × List CollabLink :=
  (pruneCollabNodes nodes maxNodes, pruneCollabLinks nodes links maxNodes)

/-- Collaboration count carried by a link (0 for authorship links). -/
def collabCount : CollabLink → Nat
  | .authorPaper _ _ _ _ _ => 0
  | .authorAuthor _ _ c _ => c

/-- Shared-paper id list carried by a link (empty for authorship links). -/
def collabPaperIds : CollabLink → List String
  | .authorPaper _ _ _ _ _ => []
  | .authorAuthor _ _ _ ps => ps

/-- The entries of a paper→authors index listing both given authors. -/
def sharedPaperEntries (papers : List (String × List String)) (a b : String) :
    List (String × List String) :=
  papers.filter (fun e => e.2.contains a && e.2.contains b)

/-- A link connects the author nodes of `a` and `b` (in either direction). -/
def collabLinkHasEnds (l : CollabLink) (a b : String) : Prop :=
  (collabLinkSource l = "author_" ++ a ∧ collabLinkTarget l = "author_" ++ b) ∨
  (collabLinkSource l = "author_" ++ b ∧ collabLinkTarget l = "author_" ++ a)

/-! ### `EnhancedCitationNetworkV2` (part_000): ingestion, node map, links,
fixed-budget pruning and community detection -/

/-- Row validation of `EnhancedCitationNetworkV2.loadAndProcessCsv`: the four
fields `citing_paperid, cited_paperid, year, ref_year` non-empty after
trimming. -/
def isValidV2 (row : RefCsvData) : Bool :=
  !(jsTrim row.citing_paperid = "") && !(jsTrim row.cited_paperid = "") &&
  !(jsTrim row.year = "") && !(jsTrim row.ref_year = "")

/-- A node of the V2 network.  `publish_year` models the JS
`parseInt(s.trim(), 10) || s.trim()` (number-or-string union; `0` and `NaN`
are falsy).  The display-only `impact_score` (`Math.random() * 5`) is
nondeterministic and not modelled. -/
structure EnhancedNode where
  id : String
  name : String
  publish_year : Int ⊕ String
  citation_count : Nat
  institution : String
  topic : String
deriving DecidableEq, Repr

/-- JS `parseInt(s.trim(), 10) || s.trim()`. -/
def jsParseIntOr (s : String) : Int ⊕ String :=
  match parseIntJS s with
  | some n => if n = 0 then Sum.inr (jsTrim s) else Sum.inl n
  | none => Sum.inr (jsTrim s)

/-- The citing-paper node created for a row. -/
def mkCitingNodeV2 (row : RefCsvData) : EnhancedNode :=
  { id := jsTrim row.citing_paperid
    name := "Paper_" ++ sliceLast (jsTrim row.citing_paperid) 6
    publish_year := jsParseIntOr row.year
    citation_count := 0
    institution := "Unknown"
    topic := "Computer Science" }

/-- The cited-paper node created for a row. -/
def mkCitedNodeV2 (row : RefCsvData) : EnhancedNode :=
  { id := jsTrim row.cited_paperid
    name := "Paper_" ++ sliceLast (jsTrim row.cited_paperid) 6
    publish_year := jsParseIntOr row.ref_year
    citation_count := 0
    institution := "Unknown"
    topic := "Computer Science" }

/-- One step of the V2 node-map construction: create the citing and cited
nodes when their (raw, untrimmed) keys are absent, then increment the cited
node's citation count. -/
def v2NodeStep (m : List (String × EnhancedNode)) (row : RefCsvData) :
    List (String × EnhancedNode) :=
  let m1 := if (m.lookup row.citing_paperid).isSome then m
            else m ++ [(row.citing_paperid, mkCitingNodeV2 row)]
  let m2 := if (m1.lookup row.cited_paperid).isSome then m1
            else m1 ++ [(row.cited_paperid, mkCitedNodeV2 row)]
  updateFirst m2 row.cited_paperid (fun n => { n with citation_count := n.citation_count + 1 })

/-- The V2 `nodeMap` (insertion order). -/
def v2NodeMap (rows : List RefCsvData) : List (String × EnhancedNode) :=
  rows.foldl v2NodeStep []

/-- A link of the V2 network.  `relevance` models
`min(1, max(0, 1 - |year_diff / 10|))` as a rational, `none` playing `NaN`. -/
structure EnhancedLinkV2 where
  source : String
  target : String
  value : Nat
  citing_year : Int
  cited_year : Int
  year_diff : Int
  citation_type : String
  relevance : Option ℚ
deriving DecidableEq, Repr

/-- The link built from one valid row. -/
def mkLinkV2 (row : RefCsvData) : EnhancedLinkV2 :=
  { source := jsTrim row.citing_paperid
    target := jsTrim row.cited_paperid
    value := 1
    citing_year := (parseIntJS row.year).getD 0
    cited_year := (parseIntJS row.ref_year).getD 0
    year_diff := (parseIntJS row.year_diff).getD 0
    citation_type := "Direct"
    relevance := (parseIntJS row.year_diff).map (fun d => min 1 (max 0 (1 - |(d : ℚ)| / 10))) }

/-- The V2 link list: one link per valid row, then links whose (trimmed)
endpoint is not a key of the node map are dropped. -/
def v2Links (rows : List RefCsvData) (nodeMap : List (String × EnhancedNode)) :
    List EnhancedLinkV2 :=
  (rows.map mkLinkV2).filter
    (fun l => (nodeMap.lookup l.source).isSome && (nodeMap.lookup l.target).isSome)

/-- The V2 size bounding (part_000 lines 193-200): the first `MAX_NODES =
1000` node-map values and the links with both endpoints among their ids. -/
def v2Build (validRows : List RefCsvData) : List EnhancedNode × List EnhancedLinkV2 :=
  let nodeMap := v2NodeMap validRows
  let links := v2Links validRows nodeMap
  let limitedNodes := (nodeMap.map (fun e => e.2)).take 1000
  let limitedLinks := links.filter
    (fun l => (limitedNodes.any (fun n => n.id == l.source))
      && limitedNodes.any (fun n => n.id == l.target))
  (limitedNodes, limitedLinks)

/-- The outcome of the single `fetch` attempt, as seen by the ingestion code:
a network failure (rejected promise) or a response with a success flag,
status and body text. -/
inductive FetchOutcome where
  | networkFailure
  | response (ok : Bool) (status : Nat) (text : String)
deriving DecidableEq, Repr

/-- The typed ingestion failures of `loadAndProcessCsv`. -/
inductive LoadError where
  | networkError
  | httpError (status : Nat)
  | emptySource
  | noValidRecords
deriving DecidableEq, Repr

/-- `EnhancedCitationNetworkV2.loadAndProcessCsv` (part_000 lines 99-213)
after abstracting the opaque CSV fetch/parse plumbing: throw on network
failure or a non-ok response, throw on empty (trimmed) body text, parse and
validate rows, throw when no row survives, otherwise build the graph from the
valid rows only. -/
def loadAndProcessCsv (outcome : FetchOutcome) (csvParse : String → List RefCsvData) :
    Except LoadError (List EnhancedNode × List EnhancedLinkV2) :=
  match outcome with
  | .networkFailure => .error .networkError
  | .response ok status text =>
    if !ok then .error (.httpError status)
    else if jsTrim text = "" then .error .emptySource
    else
      let validRows := (csvParse text).filter isValidV2
      if validRows.length = 0 then .error .noValidRecords
      else .ok (v2Build validRows)

/-! ### Community detection (`detectCommunities`, part_000 lines 219-252) -/

/-- The adjacency map seeded with an empty neighbour list per node id. -/
def adjInit (nodes : List EnhancedNode) : List (String × List String) :=
  nodes.foldl (fun m n => mapSet m n.id []) []

/-- `adjacency.get(k)?.push(v)`: append to the neighbour list when the key
exists, otherwise do nothing. -/
def adjPush (m : List (String × List String)) (k v : String) :
    List (String × List String) :=
  match m with
  | [] => []
  | (k', vs) :: rest => if k' = k then (k', vs ++ [v]) :: rest else (k', vs) :: adjPush rest k v

/-- The undirected adjacency map: each link pushes its target onto its
source's list and its source onto its target's list. -/
def adjBuild (nodes : List EnhancedNode) (links : List EnhancedLinkV2) :
    List (String × List String) :=
  links.foldl (fun m l => adjPush (adjPush m l.source l.target) l.target l.source)
    (adjInit nodes)

/-- The BFS work loop: shift the queue head, and for each of its neighbours
not yet assigned a community, assign the current id and enqueue it.  `fuel`
is a termination bound; `detectCommunities` supplies enough fuel that the
queue always empties first (proved below), matching the unbounded JS loop. -/
def bfsLoop (adj : List (String × List String)) (cid : Nat) :
    Nat → List String → List (String × Nat) → List (String × Nat)
  | 0, _, comm => comm
  | _ + 1, [], comm => comm
  | fuel + 1, current :: queue, comm =>
    let nbrs := (adj.lookup current).getD []
    let step := nbrs.foldl
      (fun (p : List (String × Nat) × List String) nbr =>
        if (p.1.lookup nbr).isSome then p else (p.1 ++ [(nbr, cid)], p.2 ++ [nbr]))
      (comm, queue)
    bfsLoop adj cid fuel step.2 step.1

/-- The outer loop of `detectCommunities`: every not-yet-assigned node seeds a
fresh community id and a BFS from it. -/
def detectCommunitiesAux (adj : List (String × List String)) (fuel : Nat) :
    List EnhancedNode → Nat → List (String × Nat) → List (String × Nat)
  | [], _, comm => comm
  | node :: rest, cid, comm =>
    if (comm.lookup node.id).isSome then detectCommunitiesAux adj fuel rest cid comm
    else
      detectCommunitiesAux adj fuel rest (cid + 1)
        (bfsLoop adj cid fuel [node.id] (comm ++ [(node.id, cid)]))

/-- Every id the community map can ever mention: the adjacency keys and all
neighbour values. -/
def adjIds (adj : List (String × List String)) : List String :=
  adj.map (fun e => e.1) ++ (adj.map (fun e => e.2)).flatten

/-- `detectCommunities(nodes, links)`: connected components of the undirected
adjacency by repeated BFS, assigning one group id per component. -/
def detectCommunities (nodes : List EnhancedNode) (links : List EnhancedLinkV2) :
    List (String × Nat) :=
  let adj := adjBuild nodes links
  detectCommunitiesAux adj (2 * (adjIds adj).length + 2) nodes 0 []

/-- Adjacency of the community-detection graph: `y` is in `x`'s neighbour
list. -/
def nbrRel (adj : List (String × List String)) (x y : String) : Prop :=
  y ∈ (adj.lookup x).getD []

/-- Two keys are joined by some displayed link, treated as undirected. -/
def linkRel (links : List EnhancedLinkV2) (x y : String) : Prop :=
  ∃ l ∈ links, (l.source = x ∧ l.target = y) ∨ (l.source = y ∧ l.target = x)

/-- Two keys are connected by some path of displayed links (undirected). -/
def connectedIn (links : List EnhancedLinkV2) (x y : String) : Prop :=
  Relation.ReflTransGen (linkRel links) x y

/-! ### Force-simulation temperature -/

/-- Modelled from the spec: the d3-force temperature update is external
library code (not under `src/`); §4.5 specifies that alpha decays
geometrically each tick by `alphaDecay` toward `alphaTarget` (raised only by a
drag-start reheat) until it falls below the stopping threshold.  One tick:
`alpha += (alphaTarget - alpha) * alphaDecay`. -/
def alphaStep (alphaTarget alphaDecay alpha : ℚ) : ℚ :=
  alpha + (alphaTarget - alpha) * alphaDecay

/-- Modelled from the spec: the alpha value after `n` ticks from `alpha0`. -/
def alphaSeq (alphaTarget alphaDecay alpha0 : ℚ) : Nat → ℚ
  | 0 => alpha0
  | n + 1 => alphaStep alphaTarget alphaDecay (alphaSeq alphaTarget alphaDecay alpha0 n)

/-- The stopping threshold: d3's default `alphaMin = 0.001`. -/
def alphaMin : ℚ := 1 / 1000

/-- The decay configured by `BaseNetwork` (`alphaDecay(0.01)`). -/
def baseAlphaDecay : ℚ := 1 / 100

/-- The decay configured by `EnhancedCitationNetworkV2` (`alphaDecay(0.02)`). -/
def v2AlphaDecay : ℚ := 1 / 50

/-! ### Lemmas about the string primitives -/

theorem dropWhile_eq_self_of_head {α : Type} (p : α → Bool) (l : List α)
    (h : ∀ a, l.head? = some a → p a = false) : l.dropWhile p = l := by
  cases l with
  | nil => rfl
  | cons x xs =>
    have hx := h x rfl
    simp [List.dropWhile_cons, hx]

theorem dropWhile_idem {α : Type} (p : α → Bool) (l : List α) :
    (l.dropWhile p).dropWhile p = l.dropWhile p := by
  apply dropWhile_eq_self_of_head
  intro a ha
  have h := List.head?_dropWhile_not p l
  rw [ha] at h
  exact h

theorem trimList_head (l : List Char) :
    ∀ a, (trimList l).head? = some a → isWS a = false := by
  intro a ha
  obtain ⟨t, ht⟩ := List.dropWhile_suffix (l := (l.dropWhile isWS).reverse) isWS
  have hrev : trimList l ++ t.reverse = l.dropWhile isWS := by
    have := congrArg List.reverse ht
    simpa [trimList, List.reverse_append] using this
  have hhead : (l.dropWhile isWS).head? = some a := by
    rw [← hrev]
    cases hvl : trimList l with
    | nil => rw [hvl] at ha; exact absurd ha (by simp)
    | cons x xs => rw [hvl] at ha; simp at ha; simp [hvl, ha]
  have h := List.head?_dropWhile_not isWS l
  rw [hhead] at h
  exact h

theorem trimList_idem (l : List Char) : trimList (trimList l) = trimList l := by
  have h1 : (trimList l).dropWhile isWS = trimList l :=
    dropWhile_eq_self_of_head _ _ (trimList_head l)
  show (((trimList l).dropWhile isWS).reverse.dropWhile isWS).reverse = trimList l
  rw [h1]
  have h2 : (trimList l).reverse = (l.dropWhile isWS).reverse.dropWhile isWS := by
    simp [trimList]
  rw [h2, dropWhile_idem]
  simp [trimList]

theorem jsTrim_idem (s : String) : jsTrim (jsTrim s) = jsTrim s :=
  congrArg String.mk (trimList_idem s.data)

/-! ### Lemmas about `uniquePaperIds` -/

theorem mem_insertUnique {l : List String} {x y : String} :
    y ∈ insertUnique l x ↔ y ∈ l ∨ y = x := by
  by_cases h : x ∈ l <;> simp [insertUnique, h]
  exact fun hyx => hyx ▸ h

theorem insertUnique_nodup {l : List String} {x : String} (h : l.Nodup) :
    (insertUnique l x).Nodup := by
  by_cases hx : x ∈ l <;> simp [insertUnique, hx, h]
  rw [List.nodup_append]
  refine ⟨h, List.nodup_singleton x, ?_⟩
  intro a ha hax
  rw [List.mem_singleton] at hax
  exact hx (hax ▸ ha)

theorem mem_uniquePaperIds {rows : List RefCsvData} {id : String} :
    id ∈ uniquePaperIds rows ↔
      ∃ r ∈ rows, id = jsTrim r.citing_paperid ∨ id = jsTrim r.cited_paperid := by
  have go : ∀ (rs : List RefCsvData) (acc : List String),
      id ∈ rs.foldl
        (fun acc row =>
          insertUnique (insertUnique acc (jsTrim row.citing_paperid)) (jsTrim row.cited_paperid))
        acc ↔
      id ∈ acc ∨ ∃ r ∈ rs, id = jsTrim r.citing_paperid ∨ id = jsTrim r.cited_paperid := by
    intro rs
    induction rs with
    | nil => simp
    | cons r rs ih =>
      intro acc
      rw [List.foldl_cons, ih]
      rw [mem_insertUnique, mem_insertUnique]
      simp only [List.mem_cons]
      constructor
      · rintro (((h | h) | h) | ⟨r', hr', h⟩)
        · exact Or.inl h
        · exact Or.inr ⟨r, Or.inl rfl, Or.inl h⟩
        · exact Or.inr ⟨r, Or.inl rfl, Or.inr h⟩
        · exact Or.inr ⟨r', Or.inr hr', h⟩
      · rintro (h | ⟨r', (rfl | hr'), h⟩)
        · exact Or.inl (Or.inl (Or.inl h))
        · rcases h with h | h
          · exact Or.inl (Or.inl (Or.inr h))
          · exact Or.inl (Or.inr h)
        · exact Or.inr ⟨r', hr', h⟩
  simpa using go rows []

theorem uniquePaperIds_nodup (rows : List RefCsvData) : (uniquePaperIds rows).Nodup := by
  have go : ∀ (rs : List RefCsvData) (acc : List String), acc.Nodup →
      (rs.foldl
        (fun acc row =>
          insertUnique (insertUnique acc (jsTrim row.citing_paperid)) (jsTrim row.cited_paperid))
        acc).Nodup := by
    intro rs
    induction rs with
    | nil => intro acc h; simpa using h
    | cons r rs ih =>
      intro acc h
      rw [List.foldl_cons]
      exact ih _ (insertUnique_nodup (insertUnique_nodup h))
  exact go rows [] List.nodup_nil

theorem uniquePaperIds_trimmed {rows : List RefCsvData} {id : String}
    (h : id ∈ uniquePaperIds rows) : jsTrim id = id := by
  rw [mem_uniquePaperIds] at h
  obtain ⟨r, _, h | h⟩ := h <;> rw [h] <;> exact jsTrim_idem _

/-! ### Lemmas about sorting and pruning -/

theorem nodeDescLE_trans (a b c : NetworkNode) :
    nodeDescLE a b → nodeDescLE b c → nodeDescLE a c := by
  simp only [nodeDescLE, decide_eq_true_eq]
  exact fun h1 h2 => Nat.le_trans h2 h1

theorem nodeDescLE_total (a b : NetworkNode) : nodeDescLE a b || nodeDescLE b a := by
  simp only [nodeDescLE, Bool.or_eq_true, decide_eq_true_eq]
  exact Nat.le_total b.citation_count a.citation_count

theorem sortNodes_perm (nodes : List NetworkNode) :
    (sortNodesByCitations nodes).Perm nodes :=
  List.mergeSort_perm nodes nodeDescLE

theorem sortNodes_sorted (nodes : List NetworkNode) :
    (sortNodesByCitations nodes).Pairwise
      (fun a b => b.citation_count ≤ a.citation_count) := by
  have h := @List.sorted_mergeSort NetworkNode nodeDescLE
    (fun a b c => nodeDescLE_trans a b c)
    (fun a b => nodeDescLE_total a b) nodes
  exact h.imp (fun {a b} hab => by simpa [nodeDescLE] using hab)

theorem take_min_length {α : Type} (l : List α) (n : Nat) :
    l.take (min n l.length) = l.take n := by
  rcases Nat.le_total n l.length with h | h
  · rw [Nat.min_eq_left h]
  · rw [Nat.min_eq_right h, List.take_of_length_le h, List.take_of_length_le]
    omega

/-- The displayed node list of `pruneBase` is always a prefix of the
descending-sorted list: of length `maxNodes` normally, of length 1 under the
empty-prefix fallback. -/
theorem pruneBaseNodes_eq (nodes : List NetworkNode) (m : Nat) :
    pruneBaseNodes nodes m = (sortNodesByCitations nodes).take (max m 1) := by
  unfold pruneBaseNodes
  simp only [take_min_length]
  cases m with
  | zero =>
    simp
  | succ k =>
    by_cases hs : sortNodesByCitations nodes = []
    · simp [hs]
    · have hlen : 0 < ((sortNodesByCitations nodes).take (k + 1)).length := by
        rw [List.length_take]
        have : 0 < (sortNodesByCitations nodes).length := List.length_pos.mpr hs
        omega
      have hmax : max (k + 1) 1 = k + 1 := by omega
      simp only [hmax, gt_iff_lt, hlen, if_pos]

theorem pruneBase_kept_ge_dropped (nodes : List NetworkNode) (m : Nat) :
    ∀ a ∈ pruneBaseNodes nodes m, ∀ b ∈ nodes, b ∉ pruneBaseNodes nodes m →
      b.citation_count ≤ a.citation_count := by
  intro a ha b hb hbn
  rw [pruneBaseNodes_eq] at ha hbn
  have hbs : b ∈ sortNodesByCitations nodes := (sortNodes_perm nodes).mem_iff.mpr hb
  have hsplit := List.take_append_drop (max m 1) (sortNodesByCitations nodes)
  have hball : b ∈ (sortNodesByCitations nodes).take (max m 1) ++
      (sortNodesByCitations nodes).drop (max m 1) := by
    rw [hsplit]; exact hbs
  have hbd : b ∈ (sortNodesByCitations nodes).drop (max m 1) := by
    rcases List.mem_append.mp hball with h | h
    · exact absurd h hbn
    · exact h
  have hsorted := sortNodes_sorted nodes
  rw [← hsplit] at hsorted
  exact (List.pairwise_append.mp hsorted).2.2 a ha b hbd

/-! ### Claim theorems for the citation network -/

/-- C2: the Graph Builder produces exactly one node per unique (trimmed) paper
identifier occurring as citing or cited id of a valid record, each node's
`citation_count` counts the valid records citing it, and the single record
(P1 cites P2, 2021/2020, diff 1) yields exactly the two expected nodes and the
one expected edge. -/
theorem C2_graph_builder_dedup :
    (∀ rows : List RefCsvData,
      ((buildNodes (rows.filter isValidRef)).map (fun n => n.id)
          = uniquePaperIds (rows.filter isValidRef))
      ∧ ((buildNodes (rows.filter isValidRef)).map (fun n => n.id)).Nodup
      ∧ (∀ id, id ∈ uniquePaperIds (rows.filter isValidRef) ↔
          ∃ r ∈ rows.filter isValidRef,
            id = jsTrim r.citing_paperid ∨ id = jsTrim r.cited_paperid)
      ∧ (∀ n ∈ buildNodes (rows.filter isValidRef),
          n.citation_count
            = ((rows.filter isValidRef).filter
                (fun r => jsTrim r.cited_paperid == n.id)).length))
    ∧ buildNodes (List.filter isValidRef [⟨"P1", "P2", "2021", "2020", "1"⟩])
        = [⟨"P1", "Paper_P1", "Yeshiva University", 2021, 0, "P1"⟩,
           ⟨"P2", "Paper_P2", "Yeshiva University", 2020, 1, "P2"⟩]
    ∧ buildLinks (List.filter isValidRef [⟨"P1", "P2", "2021", "2020", "1"⟩])
        = [⟨"P1", "P2", 1, 2021, 2020, 1⟩] := by
  refine ⟨fun rows => ?_, by decide, by decide⟩
  have hmapid : (buildNodes (rows.filter isValidRef)).map (fun n => n.id)
      = uniquePaperIds (rows.filter isValidRef) := by
    unfold buildNodes
    rw [List.map_map]
    have hcongr : (uniquePaperIds (rows.filter isValidRef)).map
        ((fun n => n.id) ∘ mkNode (rows.filter isValidRef))
        = (uniquePaperIds (rows.filter isValidRef)).map (fun id => id) :=
      List.map_congr_left (fun id hid => uniquePaperIds_trimmed hid)
    rw [hcongr, List.map_id']
  refine ⟨hmapid, ?_, fun id => mem_uniquePaperIds, ?_⟩
  · rw [hmapid]; exact uniquePaperIds_nodup _
  · intro n hn
    unfold buildNodes at hn
    obtain ⟨id, hid, rfl⟩ := List.mem_map.mp hn
    have htr : jsTrim id = id := uniquePaperIds_trimmed hid
    show citationCount (rows.filter isValidRef) id = _
    unfold citationCount
    congr 1
    apply List.filter_congr
    intro r _
    show (jsTrim r.cited_paperid == id) = (jsTrim r.cited_paperid == jsTrim id)
    rw [htr]

theorem C2_graph_builder_dedup_witness :
    (⟨"P2", "Paper_P2", "Yeshiva University", 2020, 1, "P2"⟩ : NetworkNode)
        ∈ buildNodes (List.filter isValidRef [⟨"P1", "P2", "2021", "2020", "1"⟩])
    ∧ (⟨"P2", "Paper_P2", "Yeshiva University", 2020, 1, "P2"⟩ : NetworkNode).citation_count
        = ((List.filter isValidRef [⟨"P1", "P2", "2021", "2020", "1"⟩]).filter
            (fun r => jsTrim r.cited_paperid == "P2")).length :=
  ⟨by decide,
   (C2_graph_builder_dedup.1 [⟨"P1", "P2", "2021", "2020", "1"⟩]).2.2.2
     ⟨"P2", "Paper_P2", "Yeshiva University", 2020, 1, "P2"⟩ (by decide)⟩

/-- C5 counterexample: a valid self-citation record (citing = cited = P1)
produces an edge whose source and target coincide, so the Graph Builder does
not exclude self-loops. -/
theorem C5_counterexample :
    ∃ l ∈ buildLinks (List.filter isValidRef [⟨"P1", "P1", "2021", "2020", "1"⟩]),
      l.source = l.target := by
  decide

/-- C5 (amended): the Graph Builder keeps self-loop edges — every valid record
whose trimmed citing and cited ids coincide contributes an edge with equal
source and target to the built edge set. -/
theorem C5_self_loops_retained :
    ∀ (rows : List RefCsvData) (r : RefCsvData), r ∈ rows → isValidRef r = true →
      jsTrim r.citing_paperid = jsTrim r.cited_paperid →
      ∃ l ∈ buildLinks (rows.filter isValidRef), l.source = l.target := by
  intro rows r hr hv heq
  refine ⟨mkLink r, ?_, heq⟩
  unfold buildLinks
  exact List.mem_map.mpr ⟨r, List.mem_filter.mpr ⟨hr, hv⟩, rfl⟩

theorem C5_self_loops_retained_witness :
    (⟨"P1", "P1", "2021", "2020", "1"⟩ : RefCsvData) ∈
        [(⟨"P1", "P1", "2021", "2020", "1"⟩ : RefCsvData)]
    ∧ isValidRef ⟨"P1", "P1", "2021", "2020", "1"⟩ = true
    ∧ jsTrim "P1" = jsTrim "P1"
    ∧ ∃ l ∈ buildLinks (List.filter isValidRef [⟨"P1", "P1", "2021", "2020", "1"⟩]),
        l.source = l.target :=
  ⟨by decide, by decide, rfl,
    C5_self_loops_retained [⟨"P1", "P1", "2021", "2020", "1"⟩]
      ⟨"P1", "P1", "2021", "2020", "1"⟩ (by decide) (by decide) rfl⟩

/-- C6: the default pruning policy displays exactly the first `maxNodes`
entries of the stable descending-by-citation-count sort of the full node set
(whenever `maxNodes ≥ 1`), the sorted list is a descending permutation of the
input, and every kept node's citation count is at least that of every dropped
node (for every budget, fallback included). -/
theorem C6_default_pruning :
    (∀ (nodes : List NetworkNode) (links : List NetworkLink) (maxNodes : Nat),
      1 ≤ maxNodes →
        (pruneBase nodes links maxNodes).1 = (sortNodesByCitations nodes).take maxNodes)
    ∧ (∀ nodes : List NetworkNode,
        (sortNodesByCitations nodes).Perm nodes
        ∧ (sortNodesByCitations nodes).Pairwise
            (fun a b => b.citation_count ≤ a.citation_count))
    ∧ (∀ (nodes : List NetworkNode) (links : List NetworkLink) (maxNodes : Nat),
        ∀ a ∈ (pruneBase nodes links maxNodes).1, ∀ b ∈ nodes,
          b ∉ (pruneBase nodes links maxNodes).1 →
            b.citation_count ≤ a.citation_count) := by
  refine ⟨?_, fun nodes => ⟨sortNodes_perm nodes, sortNodes_sorted nodes⟩,
    fun nodes links maxNodes => pruneBase_kept_ge_dropped nodes maxNodes⟩
  intro nodes links maxNodes hm
  show pruneBaseNodes nodes maxNodes = _
  rw [pruneBaseNodes_eq]
  congr 1
  omega

theorem C6_default_pruning_witness :
    (1 ≤ 1
      ∧ (pruneBase [⟨"P1", "Paper_P1", "Yeshiva University", 2021, 0, "P1"⟩] [] 1).1
          = (sortNodesByCitations
              [⟨"P1", "Paper_P1", "Yeshiva University", 2021, 0, "P1"⟩]).take 1) :=
  ⟨by decide,
    C6_default_pruning.1 [⟨"P1", "Paper_P1", "Yeshiva University", 2021, 0, "P1"⟩] [] 1
      (by decide)⟩

/-- C10: each built node's `publish_year` is the parsed `year` of the first
valid record citing from it when one exists, otherwise the parsed `ref_year`
of the first valid record citing it, otherwise the default 2020 — so it is
defined for every node, including papers that never appear as citing papers. -/
theorem C10_publish_year :
    ∀ (rows : List RefCsvData) (id : String),
      (∀ r, rows.find? (fun row => jsTrim row.citing_paperid == id) = some r →
        ∀ y, parseIntJS r.year = some y → (mkNode rows id).publish_year = y)
      ∧ (rows.find? (fun row => jsTrim row.citing_paperid == id) = none →
          ∀ r, rows.find? (fun row => jsTrim row.cited_paperid == id) = some r →
            ∀ y, parseIntJS r.ref_year = some y → (mkNode rows id).publish_year = y)
      ∧ (rows.find? (fun row => jsTrim row.citing_paperid == id) = none →
          rows.find? (fun row => jsTrim row.cited_paperid == id) = none →
          (mkNode rows id).publish_year = 2020) := by
  intro rows id
  refine ⟨?_, ?_, ?_⟩
  · intro r hr y hy
    show publishYear rows id = y
    unfold publishYear
    rw [hr]
    simp [hy]
  · intro hnone r hr y hy
    show publishYear rows id = y
    unfold publishYear
    rw [hnone]
    simp only []
    rw [hr]
    simp [hy]
  · intro h1 h2
    show publishYear rows id = 2020
    unfold publishYear
    rw [h1]
    simp only []
    rw [h2]

theorem C10_publish_year_witness :
    ([(⟨"P1", "P2", "2021", "2020", "1"⟩ : RefCsvData)].find?
        (fun row => jsTrim row.citing_paperid == "P2") = none)
    ∧ ([(⟨"P1", "P2", "2021", "2020", "1"⟩ : RefCsvData)].find?
        (fun row => jsTrim row.cited_paperid == "P2")
          = some ⟨"P1", "P2", "2021", "2020", "1"⟩)
    ∧ parseIntJS "2020" = some 2020
    ∧ (mkNode [⟨"P1", "P2", "2021", "2020", "1"⟩] ("P2")).publish_year = 2020 :=
  ⟨by decide, by decide, by decide,
    (C10_publish_year [⟨"P1", "P2", "2021", "2020", "1"⟩] ("P2")).2.1 (by decide)
      ⟨"P1", "P2", "2021", "2020", "1"⟩ (by decide) 2020 (by decide)⟩

/-! ### Lemmas about the collaboration pruning step -/

theorem pruneCollabNodes_eq (nodes : List CollabNode) (m : Nat) :
    pruneCollabNodes nodes m =
      ((nodes.filter isAuthorNode).mergeSort
          (fun a b => authorImportance b ≤ authorImportance a)).take (m * 7 / 10)
      ++ ((nodes.filter (fun n => !isAuthorNode n)).mergeSort
          (fun a b => paperImportance b ≤ paperImportance a)).take (m - m * 7 / 10) := rfl

/-- C7: pruning the collaboration graph with `maxNodes = 10` displays exactly
`min 7 (#authors)` author nodes and `min 3 (#papers)` paper nodes — 7 and 3
when enough of each kind exist, all of a kind when fewer, and never more than
the kind's quota. -/
theorem C7_quota_pruning :
    ∀ (nodes : List CollabNode) (links : List CollabLink),
      ((pruneCollab nodes links 10).1.filter isAuthorNode).length
          = min 7 (nodes.filter isAuthorNode).length
      ∧ ((pruneCollab nodes links 10).1.filter (fun n => !isAuthorNode n)).length
          = min 3 (nodes.filter (fun n => !isAuthorNode n)).length
      ∧ ((pruneCollab nodes links 10).1.filter isAuthorNode).length ≤ 7
      ∧ ((pruneCollab nodes links 10).1.filter (fun n => !isAuthorNode n)).length ≤ 3 := by
  intro nodes links
  have hq : (10 : Nat) * 7 / 10 = 7 := by norm_num
  have hp : (10 : Nat) - 10 * 7 / 10 = 3 := by norm_num
  show ((pruneCollabNodes nodes 10).filter isAuthorNode).length = _
    ∧ ((pruneCollabNodes nodes 10).filter (fun n => !isAuthorNode n)).length = _
    ∧ ((pruneCollabNodes nodes 10).filter isAuthorNode).length ≤ 7
    ∧ ((pruneCollabNodes nodes 10).filter (fun n => !isAuthorNode n)).length ≤ 3
  rw [pruneCollabNodes_eq, hq, hp]
  set sA := (nodes.filter isAuthorNode).mergeSort
    (fun a b => authorImportance b ≤ authorImportance a) with hsA
  set sP := (nodes.filter (fun n => !isAuthorNode n)).mergeSort
    (fun a b => paperImportance b ≤ paperImportance a) with hsP
  have hAmem : ∀ x ∈ sA, isAuthorNode x = true := by
    intro x hx
    rw [hsA, List.mem_mergeSort] at hx
    exact (List.mem_filter.mp hx).2
  have hPmem : ∀ x ∈ sP, isAuthorNode x = false := by
    intro x hx
    rw [hsP, List.mem_mergeSort] at hx
    have := (List.mem_filter.mp hx).2
    simpa using this
  have hfA : (sA.take 7).filter isAuthorNode = sA.take 7 :=
    List.filter_eq_self.mpr (fun x hx => hAmem x (List.mem_of_mem_take hx))
  have hfA' : (sA.take 7).filter (fun n => !isAuthorNode n) = [] := by
    rw [List.filter_eq_nil_iff]
    intro x hx
    simp [hAmem x (List.mem_of_mem_take hx)]
  have hfP : (sP.take 3).filter (fun n => !isAuthorNode n) = sP.take 3 :=
    List.filter_eq_self.mpr (fun x hx => by simp [hPmem x (List.mem_of_mem_take hx)])
  have hfP' : (sP.take 3).filter isAuthorNode = [] := by
    rw [List.filter_eq_nil_iff]
    intro x hx
    simp [hPmem x (List.mem_of_mem_take hx)]
  have hlenA : sA.length = (nodes.filter isAuthorNode).length := by
    rw [hsA, List.length_mergeSort]
  have hlenP : sP.length = (nodes.filter (fun n => !isAuthorNode n)).length := by
    rw [hsP, List.length_mergeSort]
  constructor
  · rw [List.filter_append, hfA, hfP', List.length_append, List.length_take, hlenA]
    simp
  constructor
  · rw [List.filter_append, hfA', hfP, List.length_append, List.length_take, hlenP]
    simp
  constructor
  · rw [List.filter_append, hfA, hfP', List.length_append, List.length_take]
    simp
  · rw [List.filter_append, hfA', hfP, List.length_append, List.length_take]
    simp

/-! ### C1: node budget and edge containment of all three pruning steps -/

/-- C1 counterexample: with budget `maxNodes = 0` and one node, the base
pruning fallback still displays one node, exceeding the budget. -/
theorem C1_counterexample :
    ¬ ((pruneBase [⟨"P1", "Paper_P1", "Yeshiva University", 2021, 0, "P1"⟩] [] 0).1.length
        ≤ 0) := by
  simp [pruneBase, pruneBaseNodes, sortNodesByCitations]

/-- C1 (amended): for every pruning call with budget `maxNodes = N ≥ 1` the
displayed graph has at most `N` nodes (the `N = 0` fallback keeps one node
instead), the quota pruning respects every budget, the V2 pruning respects its
fixed budget 1000, and in all three pruning steps every displayed edge has
both endpoint keys among the displayed node ids. -/
theorem C1_pruning_bound :
    (∀ (nodes : List NetworkNode) (links : List NetworkLink) (maxNodes : Nat),
      (1 ≤ maxNodes → (pruneBase nodes links maxNodes).1.length ≤ maxNodes)
      ∧ ∀ l ∈ (pruneBase nodes links maxNodes).2,
          l.source ∈ (pruneBase nodes links maxNodes).1.map (fun n => n.id)
          ∧ l.target ∈ (pruneBase nodes links maxNodes).1.map (fun n => n.id))
    ∧ (∀ (nodes : List CollabNode) (links : List CollabLink) (maxNodes : Nat),
      (pruneCollab nodes links maxNodes).1.length ≤ maxNodes
      ∧ ∀ l ∈ (pruneCollab nodes links maxNodes).2,
          collabLinkSource l ∈ (pruneCollab nodes links maxNodes).1.map collabNodeId
          ∧ collabLinkTarget l ∈ (pruneCollab nodes links maxNodes).1.map collabNodeId)
    ∧ (∀ validRows : List RefCsvData,
      (v2Build validRows).1.length ≤ 1000
      ∧ ∀ l ∈ (v2Build validRows).2,
          (∃ n ∈ (v2Build validRows).1, n.id = l.source)
          ∧ ∃ n ∈ (v2Build validRows).1, n.id = l.target) := by
  refine ⟨?_, ?_, ?_⟩
  · intro nodes links maxNodes
    constructor
    · intro hm
      show (pruneBaseNodes nodes maxNodes).length ≤ maxNodes
      rw [pruneBaseNodes_eq, List.length_take]
      omega
    · intro l hl
      have hmem := List.mem_filter.mp hl
      have hcond := hmem.2
      rw [Bool.and_eq_true] at hcond
      exact ⟨List.mem_of_elem_eq_true hcond.1, List.mem_of_elem_eq_true hcond.2⟩
  · intro nodes links maxNodes
    constructor
    · show (pruneCollabNodes nodes maxNodes).length ≤ maxNodes
      rw [pruneCollabNodes_eq, List.length_append, List.length_take, List.length_take]
      have hq : maxNodes * 7 / 10 ≤ maxNodes := by
        have h1 : maxNodes * 7 ≤ maxNodes * 10 := by omega
        have h2 := Nat.div_le_div_right (c := 10) h1
        simpa [Nat.mul_div_cancel] using h2
      omega
    · intro l hl
      have hmem := List.mem_filter.mp hl
      have hcond := hmem.2
      rw [Bool.and_eq_true] at hcond
      exact ⟨List.mem_of_elem_eq_true hcond.1, List.mem_of_elem_eq_true hcond.2⟩
  · intro validRows
    constructor
    · show (((v2NodeMap validRows).map (fun e => e.2)).take 1000).length ≤ 1000
      rw [List.length_take]
      omega
    · intro l hl
      have hmem := List.mem_filter.mp hl
      have hcond := hmem.2
      rw [Bool.and_eq_true, List.any_eq_true, List.any_eq_true] at hcond
      obtain ⟨⟨n1, hn1, he1⟩, ⟨n2, hn2, he2⟩⟩ := hcond
      exact ⟨⟨n1, hn1, by simpa using he1⟩, ⟨n2, hn2, by simpa using he2⟩⟩

theorem C1_pruning_bound_witness :
    (1 ≤ 5
      ∧ (pruneBase [⟨"P1", "Paper_P1", "Yeshiva University", 2021, 0, "P1"⟩] [] 5).1.length
          ≤ 5) :=
  ⟨by decide,
    (C1_pruning_bound.1 [⟨"P1", "Paper_P1", "Yeshiva University", 2021, 0, "P1"⟩] [] 5).1
      (by decide)⟩

/-! ### C8: the ingestion error taxonomy -/

/-- C8: ingestion fails with `networkError`/`httpError` exactly when the fetch
fails or reports a non-success status, with `emptySource` when the body text
is blank, with `noValidRecords` when no row survives validation, and succeeds
otherwise — building the graph from the surviving rows only, with no partial
graph in any error case. -/
theorem C8_ingestion_errors :
    ∀ (parse : String → List RefCsvData) (ok : Bool) (status : Nat) (text : String),
      (loadAndProcessCsv FetchOutcome.networkFailure parse = .error .networkError)
      ∧ (ok = false →
          loadAndProcessCsv (FetchOutcome.response ok status text) parse
            = .error (.httpError status))
      ∧ (ok = true → jsTrim text = "" →
          loadAndProcessCsv (FetchOutcome.response ok status text) parse
            = .error .emptySource)
      ∧ (ok = true → jsTrim text ≠ "" → (parse text).filter isValidV2 = [] →
          loadAndProcessCsv (FetchOutcome.response ok status text) parse
            = .error .noValidRecords)
      ∧ (ok = true → jsTrim text ≠ "" → (parse text).filter isValidV2 ≠ [] →
          loadAndProcessCsv (FetchOutcome.response ok status text) parse
            = .ok (v2Build ((parse text).filter isValidV2)))
      ∧ ((∃ g, loadAndProcessCsv (FetchOutcome.response ok status text) parse = .ok g) ↔
          ok = true ∧ jsTrim text ≠ "" ∧ (parse text).filter isValidV2 ≠ []) := by
  intro parse ok status text
  refine ⟨rfl, ?_, ?_, ?_, ?_, ?_⟩
  · rintro rfl
    rfl
  · rintro rfl he
    simp [loadAndProcessCsv, he]
  · rintro rfl he hv
    simp [loadAndProcessCsv, he, hv]
  · rintro rfl he hv
    simp [loadAndProcessCsv, he, List.length_eq_zero.not.mpr hv, hv]
  · constructor
    · rintro ⟨g, hg⟩
      by_cases hok : ok
      · subst hok
        by_cases he : jsTrim text = ""
        · simp [loadAndProcessCsv, he] at hg
        · by_cases hv : (parse text).filter isValidV2 = []
          · simp [loadAndProcessCsv, he, hv] at hg
          · exact ⟨rfl, he, hv⟩
      · simp at hok
        subst hok
        simp [loadAndProcessCsv] at hg
    · rintro ⟨rfl, he, hv⟩
      exact ⟨v2Build ((parse text).filter isValidV2), by
        simp [loadAndProcessCsv, he, List.length_eq_zero.not.mpr hv, hv]⟩

theorem C8_ingestion_errors_witness :
    loadAndProcessCsv (FetchOutcome.response true 200 "x")
        (fun _ => [⟨"P1", "P2", "2021", "2020", "1"⟩])
      = .ok (v2Build (List.filter isValidV2 [⟨"P1", "P2", "2021", "2020", "1"⟩])) :=
  (C8_ingestion_errors (fun _ => [⟨"P1", "P2", "2021", "2020", "1"⟩]) true 200 "x").2.2.2.2.1
    rfl (by decide) (by decide)

/-! ### C9: alpha decay of the force simulation -/

theorem alphaSeq_nonneg (decay alpha0 : ℚ) (hd : 0 ≤ decay) (hd1 : decay ≤ 1)
    (ha : 0 ≤ alpha0) : ∀ n, 0 ≤ alphaSeq 0 decay alpha0 n := by
  intro n
  induction n with
  | zero => exact ha
  | succ k ih =>
    show 0 ≤ alphaStep 0 decay (alphaSeq 0 decay alpha0 k)
    unfold alphaStep
    nlinarith

/-- C9 (modelled from the spec, d3-force being external library code): with
`alphaTarget = 0` — i.e. absent a drag-triggered reheat — alpha is monotone
non-increasing tick over tick, follows the geometric law `(1 - decay)^n`, and
for the decays configured in the sources (0.01 and 0.02) it falls below the
stopping threshold `alphaMin = 0.001` within an explicit bounded number of
ticks. -/
theorem C9_alpha_decay :
    (∀ (decay alpha0 : ℚ), 0 ≤ decay → decay ≤ 1 → 0 ≤ alpha0 →
      ∀ n, alphaSeq 0 decay alpha0 (n + 1) ≤ alphaSeq 0 decay alpha0 n)
    ∧ (∀ n, alphaSeq 0 baseAlphaDecay 1 n = (99 / 100) ^ n)
    ∧ (∀ n, alphaSeq 0 v2AlphaDecay 1 n = (49 / 50) ^ n)
    ∧ alphaSeq 0 baseAlphaDecay 1 99000 < alphaMin
    ∧ alphaSeq 0 v2AlphaDecay 1 50000 < alphaMin := by
  have hclosed : ∀ (d : ℚ), ∀ n, alphaSeq 0 d 1 n = (1 - d) ^ n := by
    intro d n
    induction n with
    | zero => simp [alphaSeq]
    | succ k ih =>
      show alphaStep 0 d (alphaSeq 0 d 1 k) = _
      rw [ih]
      unfold alphaStep
      ring
  have hbern : ∀ (x : ℚ) (N : Nat), 0 < x → (1000 : ℚ) < 1 + N * x →
      ((1 + x)⁻¹) ^ N < 1 / 1000 := by
    intro x N hx hN
    have hple : (1000 : ℚ) < (1 + x) ^ N :=
      lt_of_lt_of_le hN (one_add_mul_le_pow (by linarith) N)
    have hpos : (0 : ℚ) < (1 + x) ^ N := by positivity
    rw [inv_pow, one_div]
    exact inv_lt_inv_of_lt (by norm_num) hple
  refine ⟨?_, ?_, ?_, ?_, ?_⟩
  · intro decay alpha0 hd hd1 ha n
    have hnn := alphaSeq_nonneg decay alpha0 hd hd1 ha n
    show alphaStep 0 decay (alphaSeq 0 decay alpha0 n) ≤ alphaSeq 0 decay alpha0 n
    unfold alphaStep
    nlinarith
  · intro n
    have := hclosed baseAlphaDecay n
    rw [this]
    norm_num [baseAlphaDecay]
  · intro n
    have := hclosed v2AlphaDecay n
    rw [this]
    norm_num [v2AlphaDecay]
  · rw [hclosed baseAlphaDecay 99000]
    have h99 : (1 - baseAlphaDecay) = ((1 + 1 / 99 : ℚ))⁻¹ := by
      norm_num [baseAlphaDecay]
    rw [h99]
    have := hbern (1 / 99) 99000 (by norm_num) (by norm_num)
    simpa [alphaMin] using this
  · rw [hclosed v2AlphaDecay 50000]
    have h49 : (1 - v2AlphaDecay) = ((1 + 1 / 49 : ℚ))⁻¹ := by
      norm_num [v2AlphaDecay]
    rw [h49]
    have := hbern (1 / 49) 50000 (by norm_num) (by norm_num)
    simpa [alphaMin] using this

theorem C9_alpha_decay_witness :
    ((0 : ℚ) ≤ 1 / 100 ∧ (1 / 100 : ℚ) ≤ 1 ∧ (0 : ℚ) ≤ 1
      ∧ alphaSeq 0 (1 / 100) 1 1 ≤ alphaSeq 0 (1 / 100) 1 0) :=
  ⟨by norm_num, by norm_num, by norm_num,
    C9_alpha_decay.1 (1 / 100) 1 (by norm_num) (by norm_num) (by norm_num) 0⟩

/-! ### Association-list lemmas for the collaboration map -/

theorem lookup_updateFirst_self {α : Type} (m : List (String × α)) (k : String) (f : α → α) :
    (updateFirst m k f).lookup k = (m.lookup k).map f := by
  induction m with
  | nil => rfl
  | cons p rest ih =>
    obtain ⟨k', v⟩ := p
    by_cases h : k' = k
    · subst h
      simp [updateFirst, List.lookup_cons]
    · have hne : (k == k') = false := by simp [Ne.symm h]
      simp [updateFirst, h, List.lookup_cons, hne, ih]

theorem lookup_updateFirst_other {α : Type} (m : List (String × α)) (k : String) (f : α → α)
    (k' : String) (h : k' ≠ k) :
    (updateFirst m k f).lookup k' = m.lookup k' := by
  induction m with
  | nil => rfl
  | cons p rest ih =>
    obtain ⟨k0, v⟩ := p
    by_cases h0 : k0 = k
    · subst h0
      have hne : (k' == k0) = false := by simp [h]
      simp [updateFirst, List.lookup_cons, hne]
    · simp [updateFirst, h0, List.lookup_cons, ih]

theorem keys_updateFirst {α : Type} (m : List (String × α)) (k : String) (f : α → α) :
    (updateFirst m k f).map Prod.fst = m.map Prod.fst := by
  induction m with
  | nil => rfl
  | cons p rest ih =>
    obtain ⟨k0, v⟩ := p
    by_cases h0 : k0 = k <;> simp [updateFirst, h0, ih]

theorem collabBump_lookup_self (m : List (String × CollabAgg)) (key pid : String) :
    (collabBump m key pid).lookup key
      = some (match m.lookup key with
          | some c => ⟨c.count + 1, setAdd c.papers pid⟩
          | none => ⟨1, [pid]⟩) := by
  unfold collabBump
  by_cases h : (m.lookup key).isSome
  · obtain ⟨c, hc⟩ := Option.isSome_iff_exists.mp h
    simp [h, lookup_updateFirst_self, hc]
  · have hn : m.lookup key = none := Option.not_isSome_iff_eq_none.mp h
    have happ : (m ++ [(key, (⟨0, []⟩ : CollabAgg))]).lookup key = some ⟨0, []⟩ := by
      rw [List.lookup_append, hn, Option.none_or]
      simp
    rw [if_neg h, lookup_updateFirst_self, happ, hn]
    simp [setAdd]

theorem collabBump_lookup_other (m : List (String × CollabAgg)) (key pid k : String)
    (h : k ≠ key) :
    (collabBump m key pid).lookup k = m.lookup k := by
  unfold collabBump
  by_cases hs : (m.lookup key).isSome
  · simp [hs, lookup_updateFirst_other _ _ _ _ h]
  · have hk : (k == key) = false := by simp [h]
    simp [hs, lookup_updateFirst_other _ _ _ _ h, List.lookup_append, List.lookup_cons, hk]

theorem collabBump_keys (m : List (String × CollabAgg)) (key pid : String) :
    (collabBump m key pid).map Prod.fst
      = if (m.lookup key).isSome then m.map Prod.fst else m.map Prod.fst ++ [key] := by
  unfold collabBump
  by_cases hs : (m.lookup key).isSome <;> simp [hs, keys_updateFirst]

theorem assoc_mem_eq {α : Type} {m : List (String × α)} (h : (m.map Prod.fst).Nodup)
    {k : String} {v₁ v₂ : α} (h₁ : (k, v₁) ∈ m) (h₂ : (k, v₂) ∈ m) : v₁ = v₂ := by
  induction m with
  | nil => cases h₁
  | cons p rest ih =>
    obtain ⟨pk, pv⟩ := p
    rw [List.map_cons, List.nodup_cons] at h
    rcases List.mem_cons.mp h₁ with heq₁ | h₁'
    · injection heq₁ with hk₁ hv₁
      rcases List.mem_cons.mp h₂ with heq₂ | h₂'
      · injection heq₂ with hk₂ hv₂
        rw [hv₁, hv₂]
      · have hmem : k ∈ rest.map Prod.fst := List.mem_map_of_mem Prod.fst h₂'
        rw [hk₁] at hmem
        exact absurd hmem h.1
    · rcases List.mem_cons.mp h₂ with heq₂ | h₂'
      · injection heq₂ with hk₂ hv₂
        have hmem : k ∈ rest.map Prod.fst := List.mem_map_of_mem Prod.fst h₁'
        rw [hk₂] at hmem
        exact absurd hmem h.1
      · exact ih h.2 h₁' h₂'

/-! ### Splitting and pair-key lemmas -/

theorem splitCharAux_no_sep (c : Char) (l acc : List Char) (h : c ∉ l) :
    splitCharAux c l acc = [acc.reverse ++ l] := by
  induction l generalizing acc with
  | nil => simp [splitCharAux]
  | cons x xs ih =>
    have hx : ¬ x = c := by rintro rfl; exact h (List.mem_cons_self _ _)
    have hxs : c ∉ xs := fun hm => h (List.mem_cons_of_mem _ hm)
    simp [splitCharAux, hx, ih _ hxs]

theorem splitCharAux_sep (c : Char) (la lb acc : List Char) (h : c ∉ la) :
    splitCharAux c (la ++ c :: lb) acc = (acc.reverse ++ la) :: splitCharAux c lb [] := by
  induction la generalizing acc with
  | nil => simp [splitCharAux]
  | cons x xs ih =>
    have hx : ¬ x = c := by rintro rfl; exact h (List.mem_cons_self _ _)
    have hxs : c ∉ xs := fun hm => h (List.mem_cons_of_mem _ hm)
    simp [splitCharAux, hx, ih _ hxs]

theorem jsSplit_key (a b : String) (ha : ('-' : Char) ∉ a.data)
    (hb : ('-' : Char) ∉ b.data) :
    jsSplit '-' (a ++ "-" ++ b) = [a, b] := by
  unfold jsSplit
  have hdata : (a ++ "-" ++ b).data = a.data ++ '-' :: b.data := by
    simp [String.data_append]
  rw [hdata, splitCharAux_sep _ _ _ _ ha, splitCharAux_no_sep _ _ _ hb]
  simp

theorem sortPair_cases (a b : String) : sortPair a b = (a, b) ∨ sortPair a b = (b, a) := by
  unfold sortPair
  split
  · exact Or.inl rfl
  · exact Or.inr rfl

theorem charListLE_total : ∀ (x y : List Char), charListLE x y = true ∨ charListLE y x = true
  | [], _ => Or.inl rfl
  | _ :: _, [] => Or.inr rfl
  | a :: as, b :: bs => by
    by_cases hab : a = b
    · subst hab
      rcases charListLE_total as bs with h | h
      · exact Or.inl (by simp [charListLE, h])
      · exact Or.inr (by simp [charListLE, h])
    · rcases lt_or_gt_of_ne hab with h | h
      · exact Or.inl (by simp [charListLE, hab, h])
      · exact Or.inr (by simp [charListLE, Ne.symm hab, h])

theorem charListLE_antisymm : ∀ {x y : List Char},
    charListLE x y = true → charListLE y x = true → x = y
  | [], [], _, _ => rfl
  | [], _ :: _, _, h2 => by simp [charListLE] at h2
  | _ :: _, [], h1, _ => by simp [charListLE] at h1
  | a :: as, b :: bs, h1, h2 => by
    by_cases hab : a = b
    · subst hab
      rw [charListLE, if_pos rfl] at h1 h2
      rw [charListLE_antisymm h1 h2]
    · rw [charListLE, if_neg hab] at h1
      rw [charListLE, if_neg (Ne.symm hab)] at h2
      rw [decide_eq_true_eq] at h1 h2
      exact absurd h2 (lt_asymm h1)

theorem strLE_total (a b : String) : strLE a b = true ∨ strLE b a = true :=
  charListLE_total a.data b.data

theorem strLE_antisymm {a b : String} (h1 : strLE a b = true) (h2 : strLE b a = true) :
    a = b := by
  cases a
  cases b
  exact congrArg String.mk (charListLE_antisymm h1 h2)

theorem sortPair_comm (a b : String) : sortPair a b = sortPair b a := by
  unfold sortPair
  by_cases h1 : strLE a b <;> by_cases h2 : strLE b a
  · have : a = b := strLE_antisymm h1 h2
    subst this
    simp
  · simp [h1, h2]
  · simp [h1, h2]
  · rcases strLE_total a b with h | h
    · exact absurd h h1
    · exact absurd h h2

theorem sortPair_eq_unordered {a b c d : String} (h : sortPair a b = sortPair c d) :
    (a = c ∧ b = d) ∨ (a = d ∧ b = c) := by
  rcases sortPair_cases a b with h1 | h1 <;> rcases sortPair_cases c d with h2 | h2 <;>
    rw [h1, h2] at h <;> simp [Prod.ext_iff] at h <;> tauto

theorem sortPair_dashFree {a b : String} (ha : ('-' : Char) ∉ a.data)
    (hb : ('-' : Char) ∉ b.data) :
    ('-' : Char) ∉ (sortPair a b).1.data ∧ ('-' : Char) ∉ (sortPair a b).2.data := by
  rcases sortPair_cases a b with h | h <;> rw [h] <;> exact ⟨‹_›, ‹_›⟩

theorem collabKey_comm (a b : String) : collabKey a b = collabKey b a := by
  unfold collabKey
  rw [sortPair_comm]

theorem jsSplit_collabKey {a b : String} (ha : ('-' : Char) ∉ a.data)
    (hb : ('-' : Char) ∉ b.data) :
    jsSplit '-' (collabKey a b) = [(sortPair a b).1, (sortPair a b).2] := by
  have h := sortPair_dashFree ha hb
  exact jsSplit_key _ _ h.1 h.2

theorem collabKey_inj {a b c d : String} (ha : ('-' : Char) ∉ a.data)
    (hb : ('-' : Char) ∉ b.data) (hc : ('-' : Char) ∉ c.data) (hd : ('-' : Char) ∉ d.data)
    (h : collabKey a b = collabKey c d) :
    (a = c ∧ b = d) ∨ (a = d ∧ b = c) := by
  have h1 := jsSplit_collabKey ha hb
  have h2 := jsSplit_collabKey hc hd
  rw [h] at h1
  rw [h2] at h1
  have hsp : sortPair c d = sortPair a b := by
    obtain ⟨hfst, hsnd⟩ := List.cons.inj h1
    obtain ⟨hsnd', _⟩ := List.cons.inj hsnd
    exact Prod.ext_iff.mpr ⟨hfst, hsnd'⟩
  rcases sortPair_eq_unordered hsp with ⟨h1', h2'⟩ | ⟨h1', h2'⟩
  · exact Or.inl ⟨h1'.symm, h2'.symm⟩
  · exact Or.inr ⟨h2'.symm, h1'.symm⟩

theorem mkAuthorAuthorLink_eq {a b : String} (ha : ('-' : Char) ∉ a.data)
    (hb : ('-' : Char) ∉ b.data) (agg : CollabAgg) :
    mkAuthorAuthorLink (collabKey a b) agg
      = CollabLink.authorAuthor ("author_" ++ (sortPair a b).1)
          ("author_" ++ (sortPair a b).2) agg.count agg.papers := by
  unfold mkAuthorAuthorLink
  rw [jsSplit_collabKey ha hb]
  rfl

/-! ### Lemmas about `orderedPairs` -/

theorem mem_orderedPairs_both {l : List String} {a b : String}
    (h : (a, b) ∈ orderedPairs l) : a ∈ l ∧ b ∈ l := by
  induction l with
  | nil => cases h
  | cons x xs ih =>
    simp only [orderedPairs, List.mem_append, List.mem_map] at h
    rcases h with ⟨y, hy, heq⟩ | h
    · injection heq with h1 h2
      subst h1
      subst h2
      exact ⟨List.mem_cons_self _ _, List.mem_cons_of_mem _ hy⟩
    · have := ih h
      exact ⟨List.mem_cons_of_mem _ this.1, List.mem_cons_of_mem _ this.2⟩

theorem orderedPairs_ne {l : List String} (hl : l.Nodup) {a b : String}
    (h : (a, b) ∈ orderedPairs l) : a ≠ b := by
  induction l with
  | nil => cases h
  | cons x xs ih =>
    rw [List.nodup_cons] at hl
    simp only [orderedPairs, List.mem_append, List.mem_map] at h
    rcases h with ⟨y, hy, heq⟩ | h
    · injection heq with h1 h2
      subst h1
      subst h2
      rintro rfl
      exact hl.1 hy
    · exact ih hl.2 h

theorem mem_orderedPairs_of_mem {l : List String} (hl : l.Nodup) {a b : String}
    (ha : a ∈ l) (hb : b ∈ l) (hab : a ≠ b) :
    (a, b) ∈ orderedPairs l ∨ (b, a) ∈ orderedPairs l := by
  induction l with
  | nil => cases ha
  | cons x xs ih =>
    rw [List.nodup_cons] at hl
    rcases List.mem_cons.mp ha with rfl | ha'
    · rcases List.mem_cons.mp hb with rfl | hb'
      · exact absurd rfl hab
      · left
        simp only [orderedPairs, List.mem_append, List.mem_map]
        exact Or.inl ⟨b, hb', rfl⟩
    · rcases List.mem_cons.mp hb with rfl | hb'
      · right
        simp only [orderedPairs, List.mem_append, List.mem_map]
        exact Or.inl ⟨a, ha', rfl⟩
      · rcases ih hl.2 ha' hb' with h | h
        · left
          simp only [orderedPairs, List.mem_append]
          exact Or.inr h
        · right
          simp only [orderedPairs, List.mem_append]
          exact Or.inr h

theorem orderedPairs_unordered_pairwise {l : List String} (hl : l.Nodup) :
    List.Pairwise (fun p q : String × String => sortPair p.1 p.2 ≠ sortPair q.1 q.2)
      (orderedPairs l) := by
  induction l with
  | nil => exact List.Pairwise.nil
  | cons x xs ih =>
    rw [List.nodup_cons] at hl
    show List.Pairwise _ (xs.map (fun b => (x, b)) ++ orderedPairs xs)
    rw [List.pairwise_append]
    refine ⟨?_, ih hl.2, ?_⟩
    · rw [List.pairwise_map]
      refine List.Pairwise.imp_of_mem ?_ hl.2
      intro y z hy hz hyz heq
      dsimp only at heq
      rcases sortPair_eq_unordered heq with ⟨_, h2⟩ | ⟨h1, _⟩
      · exact hyz h2
      · exact hl.1 (by rw [h1]; exact hz)
    · intro p hp q hq heq
      obtain ⟨y, hy, rfl⟩ := List.mem_map.mp hp
      obtain ⟨q1, q2⟩ := q
      have hq2 := mem_orderedPairs_both hq
      dsimp only at heq
      rcases sortPair_eq_unordered heq with ⟨h1, _⟩ | ⟨h1, _⟩
      · exact hl.1 (by rw [h1]; exact hq2.1)
      · exact hl.1 (by rw [h1]; exact hq2.2)

theorem orderedPairs_keys_nodup {l : List String} (hl : l.Nodup)
    (hd : ∀ x ∈ l, ('-' : Char) ∉ x.data) :
    ((orderedPairs l).map (fun pr => collabKey pr.1 pr.2)).Nodup := by
  show List.Pairwise _ _
  rw [List.pairwise_map]
  refine List.Pairwise.imp_of_mem ?_ (orderedPairs_unordered_pairwise hl)
  intro p q hp hq hne heq
  have hpm := mem_orderedPairs_both hp
  have hqm := mem_orderedPairs_both hq
  apply hne
  rcases collabKey_inj (hd _ hpm.1) (hd _ hpm.2) (hd _ hqm.1) (hd _ hqm.2) heq with
    ⟨h1, h2⟩ | ⟨h1, h2⟩
  · rw [h1, h2]
  · rw [h1, h2, sortPair_comm]

theorem collabKey_mem_keys {l : List String} (hl : l.Nodup) {a b : String}
    (hd : ∀ x ∈ l, ('-' : Char) ∉ x.data) (ha : ('-' : Char) ∉ a.data)
    (hb : ('-' : Char) ∉ b.data) :
    collabKey a b ∈ (orderedPairs l).map (fun pr => collabKey pr.1 pr.2) ↔
      a ∈ l ∧ b ∈ l ∧ a ≠ b := by
  constructor
  · intro h
    obtain ⟨pr, hpr, hkey⟩ := List.mem_map.mp h
    have hboth := mem_orderedPairs_both hpr
    have hne := orderedPairs_ne hl hpr
    rcases collabKey_inj (hd _ hboth.1) (hd _ hboth.2) ha hb hkey with ⟨h1, h2⟩ | ⟨h1, h2⟩
    · rw [← h1, ← h2]
      exact ⟨hboth.1, hboth.2, hne⟩
    · rw [← h1, ← h2]
      exact ⟨hboth.2, hboth.1, hne.symm⟩
  · rintro ⟨ha', hb', hab⟩
    rcases mem_orderedPairs_of_mem hl ha' hb' hab with h | h
    · exact List.mem_map_of_mem _ h
    · have := List.mem_map_of_mem (fun pr : String × String => collabKey pr.1 pr.2) h
      dsimp only at this
      rw [collabKey_comm a b]
      exact this

/-! ### The collaboration-map fold characterization -/

theorem innerFold_lookup_not_mem (P : List (String × String)) (pid : String)
    (m : List (String × CollabAgg)) (k : String)
    (h : k ∉ P.map (fun pr => collabKey pr.1 pr.2)) :
    (P.foldl (fun m' pr => collabBump m' (collabKey pr.1 pr.2) pid) m).lookup k
      = m.lookup k := by
  induction P generalizing m with
  | nil => rfl
  | cons pr rest ih =>
    rw [List.foldl_cons]
    rw [List.map_cons] at h
    have hk : k ≠ collabKey pr.1 pr.2 := fun he => h (by rw [he]; exact List.mem_cons_self _ _)
    rw [ih _ (fun hm => h (List.mem_cons_of_mem _ hm))]
    exact collabBump_lookup_other _ _ _ _ hk

theorem innerFold_lookup_mem (P : List (String × String)) (pid : String)
    (m : List (String × CollabAgg)) (k : String)
    (hk : k ∈ P.map (fun pr => collabKey pr.1 pr.2))
    (hnd : (P.map (fun pr => collabKey pr.1 pr.2)).Nodup) :
    (P.foldl (fun m' pr => collabBump m' (collabKey pr.1 pr.2) pid) m).lookup k
      = some (match m.lookup k with
          | some c => ⟨c.count + 1, setAdd c.papers pid⟩
          | none => ⟨1, [pid]⟩) := by
  induction P generalizing m with
  | nil => cases hk
  | cons pr rest ih =>
    rw [List.map_cons] at hk hnd
    rw [List.nodup_cons] at hnd
    rw [List.foldl_cons]
    rcases List.mem_cons.mp hk with heq | hmem
    · rw [innerFold_lookup_not_mem rest pid _ k (by rw [heq]; exact hnd.1)]
      rw [heq]
      exact collabBump_lookup_self m _ pid
    · have hne : k ≠ collabKey pr.1 pr.2 := by
        rintro rfl
        exact hnd.1 hmem
      rw [ih _ hmem hnd.2, collabBump_lookup_other m _ pid k hne]

theorem innerFold_keys_mem (P : List (String × String)) (pid : String)
    (m : List (String × CollabAgg)) (k : String) :
    k ∈ (P.foldl (fun m' pr => collabBump m' (collabKey pr.1 pr.2) pid) m).map Prod.fst ↔
      k ∈ m.map Prod.fst ∨ k ∈ P.map (fun pr => collabKey pr.1 pr.2) := by
  induction P generalizing m with
  | nil => simp
  | cons pr rest ih =>
    rw [List.foldl_cons, ih, collabBump_keys, List.map_cons, List.mem_cons]
    by_cases hs : (m.lookup (collabKey pr.1 pr.2)).isSome
    · have hmem : collabKey pr.1 pr.2 ∈ m.map Prod.fst := by
        rw [List.lookup_isSome_iff] at hs
        obtain ⟨p, hp, hbeq⟩ := hs
        rw [beq_iff_eq] at hbeq
        rw [hbeq]
        exact List.mem_map_of_mem Prod.fst hp
      rw [if_pos hs]
      constructor
      · rintro (h | h)
        · exact Or.inl h
        · exact Or.inr (Or.inr h)
      · rintro (h | h | h)
        · exact Or.inl h
        · exact Or.inl (h ▸ hmem)
        · exact Or.inr h
    · rw [if_neg hs, List.mem_append, List.mem_singleton]
      constructor
      · rintro ((h | h) | h)
        · exact Or.inl h
        · exact Or.inr (Or.inl h)
        · exact Or.inr (Or.inr h)
      · rintro (h | h | h)
        · exact Or.inl (Or.inl h)
        · exact Or.inl (Or.inr h)
        · exact Or.inr h

theorem innerFold_keys_nodup (P : List (String × String)) (pid : String)
    (m : List (String × CollabAgg)) (h : (m.map Prod.fst).Nodup) :
    ((P.foldl (fun m' pr => collabBump m' (collabKey pr.1 pr.2) pid) m).map Prod.fst).Nodup := by
  induction P generalizing m with
  | nil => exact h
  | cons pr rest ih =>
    rw [List.foldl_cons]
    apply ih
    rw [collabBump_keys]
    by_cases hs : (m.lookup (collabKey pr.1 pr.2)).isSome
    · rw [if_pos hs]
      exact h
    · rw [if_neg hs]
      have hnm : collabKey pr.1 pr.2 ∉ m.map Prod.fst := by
        intro hmem
        apply hs
        rw [List.lookup_isSome_iff]
        obtain ⟨p, hp, hfst⟩ := List.mem_map.mp hmem
        exact ⟨p, hp, by simp [hfst]⟩
      rw [List.nodup_append]
      refine ⟨h, List.nodup_singleton _, ?_⟩
      intro x hx hx1
      rw [List.mem_singleton] at hx1
      exact hnm (hx1 ▸ hx)

theorem collabMap_keys_nodup (papers : List (String × List String)) :
    ((collabMapOfPapers papers).map Prod.fst).Nodup := by
  have go : ∀ (ps : List (String × List String)) (m : List (String × CollabAgg)),
      (m.map Prod.fst).Nodup →
      ((ps.foldl (fun m e => (orderedPairs e.2).foldl
          (fun m' pr => collabBump m' (collabKey pr.1 pr.2) e.1) m) m).map Prod.fst).Nodup := by
    intro ps
    induction ps with
    | nil => intro m h; exact h
    | cons e rest ih =>
      intro m h
      rw [List.foldl_cons]
      exact ih _ (innerFold_keys_nodup _ _ _ h)
  exact go papers [] (by simp)

theorem collabMap_keys_origin (papers : List (String × List String)) (k : String)
    (h : k ∈ (collabMapOfPapers papers).map Prod.fst) :
    ∃ e ∈ papers, ∃ pr ∈ orderedPairs e.2, k = collabKey pr.1 pr.2 := by
  have go : ∀ (ps : List (String × List String)) (m : List (String × CollabAgg)),
      k ∈ ((ps.foldl (fun m e => (orderedPairs e.2).foldl
          (fun m' pr => collabBump m' (collabKey pr.1 pr.2) e.1) m) m).map Prod.fst) →
      k ∈ m.map Prod.fst ∨ ∃ e ∈ ps, ∃ pr ∈ orderedPairs e.2, k = collabKey pr.1 pr.2 := by
    intro ps
    induction ps with
    | nil => intro m h'; exact Or.inl h'
    | cons e rest ih =>
      intro m h'
      rw [List.foldl_cons] at h'
      rcases ih _ h' with h'' | ⟨e', he', pr, hpr, hk⟩
      · rw [innerFold_keys_mem] at h''
        rcases h'' with h0 | h0
        · exact Or.inl h0
        · obtain ⟨pr, hpr, hk⟩ := List.mem_map.mp h0
          exact Or.inr ⟨e, List.mem_cons_self _ _, pr, hpr, hk.symm⟩
      · exact Or.inr ⟨e', List.mem_cons_of_mem _ he', pr, hpr, hk⟩
  rcases go papers [] h with h' | h'
  · cases h'
  · exact h'

theorem foldCollab_lookup
    (a b : String) (hab : a ≠ b) (ha : ('-' : Char) ∉ a.data) (hb : ('-' : Char) ∉ b.data) :
    ∀ (papers : List (String × List String)) (m : List (String × CollabAgg)),
      (papers.map Prod.fst).Nodup →
      (∀ e ∈ papers, e.2.Nodup) →
      (∀ e ∈ papers, ∀ x ∈ e.2, ('-' : Char) ∉ x.data) →
      (∀ agg, m.lookup (collabKey a b) = some agg →
        ∀ p ∈ papers.map Prod.fst, p ∉ agg.papers) →
      (papers.foldl (fun m e => (orderedPairs e.2).foldl
          (fun m' pr => collabBump m' (collabKey pr.1 pr.2) e.1) m) m).lookup (collabKey a b)
        = match m.lookup (collabKey a b) with
          | some agg => some ⟨agg.count + (sharedPaperEntries papers a b).length,
              agg.papers ++ (sharedPaperEntries papers a b).map Prod.fst⟩
          | none =>
            if sharedPaperEntries papers a b = [] then none
            else some ⟨(sharedPaperEntries papers a b).length,
                (sharedPaperEntries papers a b).map Prod.fst⟩ := by
  intro papers
  induction papers with
  | nil =>
    intro m _ _ _ _
    simp only [List.foldl_nil, sharedPaperEntries, List.filter_nil]
    cases hm : m.lookup (collabKey a b) <;> simp
  | cons e rest ih =>
    intro m hkeys hvals hdash hfresh
    rw [List.map_cons, List.nodup_cons] at hkeys
    have hval_e : e.2.Nodup := hvals e (List.mem_cons_self _ _)
    have hdash_e : ∀ x ∈ e.2, ('-' : Char) ∉ x.data := hdash e (List.mem_cons_self _ _)
    have hvals_r : ∀ e' ∈ rest, e'.2.Nodup := fun e' he' => hvals e' (List.mem_cons_of_mem _ he')
    have hdash_r : ∀ e' ∈ rest, ∀ x ∈ e'.2, ('-' : Char) ∉ x.data :=
      fun e' he' => hdash e' (List.mem_cons_of_mem _ he')
    rw [List.foldl_cons]
    by_cases hcase : a ∈ e.2 ∧ b ∈ e.2
    · have hkmem : collabKey a b ∈ (orderedPairs e.2).map (fun pr => collabKey pr.1 pr.2) :=
        (collabKey_mem_keys hval_e hdash_e ha hb).mpr ⟨hcase.1, hcase.2, hab⟩
      have hknd := orderedPairs_keys_nodup hval_e hdash_e
      have hbump := innerFold_lookup_mem (orderedPairs e.2) e.1 m (collabKey a b) hkmem hknd
      have hshared : sharedPaperEntries (e :: rest) a b = e :: sharedPaperEntries rest a b := by
        unfold sharedPaperEntries
        rw [List.filter_cons, if_pos (by simp [hcase.1, hcase.2])]
      cases hm : m.lookup (collabKey a b) with
      | some agg =>
        have hfr : e.1 ∉ agg.papers :=
          hfresh agg hm e.1 (by rw [List.map_cons]; exact List.mem_cons_self _ _)
        have hsetAdd : setAdd agg.papers e.1 = agg.papers ++ [e.1] := by simp [setAdd, hfr]
        rw [hm] at hbump
        dsimp only at hbump
        have hfresh' : ∀ agg', ((orderedPairs e.2).foldl
            (fun m' pr => collabBump m' (collabKey pr.1 pr.2) e.1) m).lookup (collabKey a b)
              = some agg' → ∀ p ∈ rest.map Prod.fst, p ∉ agg'.papers := by
          intro agg' hagg' p hp hmem
          rw [hbump] at hagg'
          injection hagg' with hagg'
          rw [← hagg'] at hmem
          dsimp only at hmem
          rw [hsetAdd] at hmem
          rcases List.mem_append.mp hmem with hmem' | hmem'
          · exact hfresh agg hm p (by rw [List.map_cons]; exact List.mem_cons_of_mem _ hp) hmem'
          · rw [List.mem_singleton] at hmem'
            subst hmem'
            exact hkeys.1 hp
        rw [ih _ hkeys.2 hvals_r hdash_r hfresh']
        rw [hbump, hsetAdd, hshared]
        simp only [List.length_cons, List.map_cons]
        congr 1
        simp only [CollabAgg.mk.injEq]
        constructor
        · omega
        · rw [List.append_assoc]
          rfl
      | none =>
        rw [hm] at hbump
        dsimp only at hbump
        have hfresh' : ∀ agg', ((orderedPairs e.2).foldl
            (fun m' pr => collabBump m' (collabKey pr.1 pr.2) e.1) m).lookup (collabKey a b)
              = some agg' → ∀ p ∈ rest.map Prod.fst, p ∉ agg'.papers := by
          intro agg' hagg' p hp hmem
          rw [hbump] at hagg'
          injection hagg' with hagg'
          rw [← hagg'] at hmem
          dsimp only at hmem
          rw [List.mem_singleton] at hmem
          subst hmem
          exact hkeys.1 hp
        rw [ih _ hkeys.2 hvals_r hdash_r hfresh']
        rw [hbump, hshared]
        simp only [List.length_cons, List.map_cons]
        rw [if_neg (by simp)]
        congr 1
        simp only [CollabAgg.mk.injEq]
        constructor
        · omega
        · rfl
    · have hknot : collabKey a b ∉ (orderedPairs e.2).map (fun pr => collabKey pr.1 pr.2) := by
        intro hmem
        obtain ⟨h1, h2, _⟩ := (collabKey_mem_keys hval_e hdash_e ha hb).mp hmem
        exact hcase ⟨h1, h2⟩
      have hpres := innerFold_lookup_not_mem (orderedPairs e.2) e.1 m (collabKey a b) hknot
      have hshared : sharedPaperEntries (e :: rest) a b = sharedPaperEntries rest a b := by
        unfold sharedPaperEntries
        rw [List.filter_cons, if_neg (by
          simp only [Bool.and_eq_true, List.contains_iff_exists_mem_beq]
          rintro ⟨⟨x, hx, hax⟩, ⟨y, hy, hby⟩⟩
          rw [beq_iff_eq] at hax hby
          exact hcase ⟨hax ▸ hx, hby ▸ hy⟩)]
      have hfresh' : ∀ agg', ((orderedPairs e.2).foldl
          (fun m' pr => collabBump m' (collabKey pr.1 pr.2) e.1) m).lookup (collabKey a b)
            = some agg' → ∀ p ∈ rest.map Prod.fst, p ∉ agg'.papers := by
        intro agg' hagg' p hp
        rw [hpres] at hagg'
        exact hfresh agg' hagg' p (by rw [List.map_cons]; exact List.mem_cons_of_mem _ hp)
      rw [ih _ hkeys.2 hvals_r hdash_r hfresh']
      rw [hpres, hshared]

theorem string_append_left_cancel {s a b : String} (h : s ++ a = s ++ b) : a = b := by
  have hd := congrArg String.data h
  rw [String.data_append, String.data_append] at hd
  have hd' := List.append_cancel_left hd
  cases a
  cases b
  exact congrArg String.mk hd'

/-- An entry of the collaboration map whose link connects the author nodes of
`a` and `b` has the canonical key of the pair, and the pair shares a paper. -/
theorem collab_entry_ends_key (papers : List (String × List String))
    (hvals : ∀ e ∈ papers, e.2.Nodup)
    (hdash : ∀ e ∈ papers, ∀ x ∈ e.2, ('-' : Char) ∉ x.data)
    (a b : String) (k : String) (agg : CollabAgg)
    (hmem : (k, agg) ∈ collabMapOfPapers papers)
    (hends : collabLinkHasEnds (mkAuthorAuthorLink k agg) a b) :
    k = collabKey a b ∧ ∃ e ∈ papers, a ∈ e.2 ∧ b ∈ e.2 := by
  obtain ⟨e, he, pr, hpr, rfl⟩ :=
    collabMap_keys_origin papers k (List.mem_map_of_mem Prod.fst hmem)
  have hboth := mem_orderedPairs_both hpr
  have hne := orderedPairs_ne (hvals e he) hpr
  have hd1 := hdash e he _ hboth.1
  have hd2 := hdash e he _ hboth.2
  rw [mkAuthorAuthorLink_eq hd1 hd2] at hends
  unfold collabLinkHasEnds at hends
  simp only [collabLinkSource, collabLinkTarget] at hends
  have hsp : (sortPair pr.1 pr.2).1 = a ∧ (sortPair pr.1 pr.2).2 = b
      ∨ (sortPair pr.1 pr.2).1 = b ∧ (sortPair pr.1 pr.2).2 = a := by
    rcases hends with ⟨h1, h2⟩ | ⟨h1, h2⟩
    · exact Or.inl ⟨string_append_left_cancel h1, string_append_left_cancel h2⟩
    · exact Or.inr ⟨string_append_left_cancel h1, string_append_left_cancel h2⟩
  have hpair : (pr.1 = a ∧ pr.2 = b) ∨ (pr.1 = b ∧ pr.2 = a) := by
    rcases sortPair_cases pr.1 pr.2 with hc | hc <;> rw [hc] at hsp <;> dsimp only at hsp <;>
      tauto
  refine ⟨?_, e, he, ?_⟩
  · rcases hpair with ⟨h1, h2⟩ | ⟨h1, h2⟩
    · rw [h1, h2]
    · rw [h1, h2, collabKey_comm]
  · rcases hpair with ⟨h1, h2⟩ | ⟨h1, h2⟩
    · exact ⟨h1 ▸ hboth.1, h2 ▸ hboth.2⟩
    · exact ⟨h2 ▸ hboth.2, h1 ▸ hboth.1⟩

/-- C3 (amended): provided author ids are free of the `'-'` separator, the
builder creates exactly one author–author collaboration edge per unordered
author pair sharing a paper — canonicalized by sorting, with
`collaboration_count` the number of shared papers and `paper_ids` their list —
and no edge otherwise; the scenario (paper X with authors A,B,C, then paper Y
with authors A,B) behaves exactly as claimed.  (Without the proviso the
join/split key encoding corrupts the endpoints, see the counterexample.) -/
theorem C3_collaboration_edges :
    (∀ (papers : List (String × List String)),
      (papers.map Prod.fst).Nodup →
      (∀ e ∈ papers, e.2.Nodup) →
      (∀ e ∈ papers, ∀ x ∈ e.2, ('-' : Char) ∉ x.data) →
      ∀ a b : String, a ≠ b → ('-' : Char) ∉ a.data → ('-' : Char) ∉ b.data →
        (sharedPaperEntries papers a b ≠ [] →
          ∃ l ∈ authorAuthorLinksOfPapers papers,
            collabLinkHasEnds l a b
            ∧ collabCount l = (sharedPaperEntries papers a b).length
            ∧ collabPaperIds l = (sharedPaperEntries papers a b).map Prod.fst)
        ∧ (sharedPaperEntries papers a b = [] →
            ¬ ∃ l ∈ authorAuthorLinksOfPapers papers, collabLinkHasEnds l a b)
        ∧ (∀ l₁ ∈ authorAuthorLinksOfPapers papers, ∀ l₂ ∈ authorAuthorLinksOfPapers papers,
            collabLinkHasEnds l₁ a b → collabLinkHasEnds l₂ a b → l₁ = l₂))
    ∧ authorAuthorLinksOfPapers (paperAuthorMap (List.filter isValidAffil
        [⟨"X", "1", "A", "I1", "r"⟩, ⟨"X", "2", "B", "I1", "r"⟩, ⟨"X", "3", "C", "I1", "r"⟩]))
        = [CollabLink.authorAuthor "author_A" "author_B" 1 ["X"],
           CollabLink.authorAuthor "author_A" "author_C" 1 ["X"],
           CollabLink.authorAuthor "author_B" "author_C" 1 ["X"]]
    ∧ authorAuthorLinksOfPapers (paperAuthorMap (List.filter isValidAffil
        [⟨"X", "1", "A", "I1", "r"⟩, ⟨"X", "2", "B", "I1", "r"⟩, ⟨"X", "3", "C", "I1", "r"⟩,
         ⟨"Y", "1", "A", "I1", "r"⟩, ⟨"Y", "2", "B", "I1", "r"⟩]))
        = [CollabLink.authorAuthor "author_A" "author_B" 2 ["X", "Y"],
           CollabLink.authorAuthor "author_A" "author_C" 1 ["X"],
           CollabLink.authorAuthor "author_B" "author_C" 1 ["X"]] := by
  refine ⟨?_, by decide, by decide⟩
  intro papers hkeys hvals hdash a b hab ha hb
  have hchar : (collabMapOfPapers papers).lookup (collabKey a b)
      = if sharedPaperEntries papers a b = [] then none
        else some ⟨(sharedPaperEntries papers a b).length,
            (sharedPaperEntries papers a b).map Prod.fst⟩ :=
    foldCollab_lookup a b hab ha hb papers [] hkeys hvals hdash (fun agg h => by simp at h)
  refine ⟨?_, ?_, ?_⟩
  · intro hne
    have hlook : (collabMapOfPapers papers).lookup (collabKey a b)
        = some ⟨(sharedPaperEntries papers a b).length,
            (sharedPaperEntries papers a b).map Prod.fst⟩ := by
      rw [hchar, if_neg hne]
    have hmem : (collabKey a b, (⟨(sharedPaperEntries papers a b).length,
        (sharedPaperEntries papers a b).map Prod.fst⟩ : CollabAgg)) ∈ collabMapOfPapers papers := by
      obtain ⟨l₁, l₂, heq, _⟩ := List.lookup_eq_some_iff.mp hlook
      rw [heq]
      exact List.mem_append.mpr (Or.inr (List.mem_cons_self _ _))
    refine ⟨mkAuthorAuthorLink (collabKey a b)
      ⟨(sharedPaperEntries papers a b).length, (sharedPaperEntries papers a b).map Prod.fst⟩,
      List.mem_map_of_mem _ hmem, ?_, ?_, ?_⟩
    · rw [mkAuthorAuthorLink_eq ha hb]
      unfold collabLinkHasEnds
      simp only [collabLinkSource, collabLinkTarget]
      rcases sortPair_cases a b with hc | hc <;> rw [hc]
      · exact Or.inl ⟨rfl, rfl⟩
      · exact Or.inr ⟨rfl, rfl⟩
    · rw [mkAuthorAuthorLink_eq ha hb]
      rfl
    · rw [mkAuthorAuthorLink_eq ha hb]
      rfl
  · rintro hempty ⟨l, hl, hends⟩
    obtain ⟨⟨k, agg⟩, hmem, rfl⟩ := List.mem_map.mp hl
    obtain ⟨_, e, he, hae, hbe⟩ := collab_entry_ends_key papers hvals hdash a b k agg hmem hends
    have : e ∈ sharedPaperEntries papers a b := by
      unfold sharedPaperEntries
      refine List.mem_filter.mpr ⟨he, ?_⟩
      simp [hae, hbe]
    rw [hempty] at this
    cases this
  · intro l₁ h₁ l₂ h₂ he₁ he₂
    obtain ⟨⟨k₁, agg₁⟩, hm₁, rfl⟩ := List.mem_map.mp h₁
    obtain ⟨⟨k₂, agg₂⟩, hm₂, rfl⟩ := List.mem_map.mp h₂
    obtain ⟨hk₁, _⟩ := collab_entry_ends_key papers hvals hdash a b k₁ agg₁ hm₁ he₁
    obtain ⟨hk₂, _⟩ := collab_entry_ends_key papers hvals hdash a b k₂ agg₂ hm₂ he₂
    subst hk₁
    subst hk₂
    have := assoc_mem_eq (collabMap_keys_nodup papers) hm₁ hm₂
    rw [this]

/-- C3 counterexample: with the author ids `a` and `b-c` on one paper `X`, the
single collaboration edge produced connects `author_a` and `author_b` — not
the pair that actually shares the paper — so the claim fails as stated for
arbitrary valid record sets. -/
theorem C3_counterexample :
    authorAuthorLinksOfPapers (paperAuthorMap (List.filter isValidAffil
        [⟨"X", "1", "a", "I1", "r"⟩, ⟨"X", "2", "b-c", "I1", "r"⟩]))
      = [CollabLink.authorAuthor "author_a" "author_b" 1 ["X"]]
    ∧ ¬ ∃ l ∈ authorAuthorLinksOfPapers (paperAuthorMap (List.filter isValidAffil
        [⟨"X", "1", "a", "I1", "r"⟩, ⟨"X", "2", "b-c", "I1", "r"⟩])),
        (collabLinkSource l = "author_a" ∧ collabLinkTarget l = "author_b-c")
        ∨ (collabLinkSource l = "author_b-c" ∧ collabLinkTarget l = "author_a") := by
  constructor
  · decide
  · decide

theorem C3_collaboration_edges_witness :
    ∃ l ∈ authorAuthorLinksOfPapers [("X", ["A", "B"])],
      collabLinkHasEnds l "A" "B"
      ∧ collabCount l = (sharedPaperEntries [("X", ["A", "B"])] "A" "B").length
      ∧ collabPaperIds l = (sharedPaperEntries [("X", ["A", "B"])] "A" "B").map Prod.fst :=
  ((C3_collaboration_edges.1 [("X", ["A", "B"])] (by decide) (by decide) (by decide)
    "A" "B" (by decide) (by decide) (by decide)).1 (by decide))

/-! ### Adjacency-map lemmas for community detection -/

theorem mapSet_lookup_self {α : Type} (m : List (String × α)) (k : String) (v : α) :
    (mapSet m k v).lookup k = some v := by
  induction m with
  | nil => simp [mapSet]
  | cons p rest ih =>
    obtain ⟨k0, v0⟩ := p
    by_cases h0 : k0 = k
    · subst h0
      simp [mapSet]
    · have hkk : (k == k0) = false := by simp [Ne.symm h0]
      simp [mapSet, h0, List.lookup_cons, hkk, ih]

theorem mapSet_lookup_other {α : Type} (m : List (String × α)) (k : String) (v : α)
    (k' : String) (h : k' ≠ k) :
    (mapSet m k v).lookup k' = m.lookup k' := by
  induction m with
  | nil =>
    have hkk : (k' == k) = false := by simp [h]
    simp [mapSet, List.lookup_cons, hkk]
  | cons p rest ih =>
    obtain ⟨k0, v0⟩ := p
    by_cases h0 : k0 = k
    · subst h0
      have hkk : (k' == k0) = false := by simp [h]
      simp [mapSet, List.lookup_cons, hkk]
    · simp [mapSet, h0, List.lookup_cons, ih]

theorem adjInit_lookup (nodes : List EnhancedNode) (k : String) :
    (adjInit nodes).lookup k = if k ∈ nodes.map (fun n => n.id) then some [] else none := by
  have go : ∀ (ns : List EnhancedNode) (m : List (String × List String)),
      (∀ k', m.lookup k' = none ∨ m.lookup k' = some []) →
      (ns.foldl (fun m n => mapSet m n.id []) m).lookup k
        = if k ∈ ns.map (fun n => n.id) then some []
          else m.lookup k := by
    intro ns
    induction ns with
    | nil => intro m _; simp
    | cons n rest ih =>
      intro m hm
      rw [List.foldl_cons, ih _ ?_]
      · by_cases hmem : k ∈ rest.map (fun n => n.id)
        · simp [hmem]
        · by_cases hk : k = n.id
          · subst hk
            simp [hmem, mapSet_lookup_self]
          · rw [if_neg hmem, mapSet_lookup_other _ _ _ _ hk]
            have : k ∈ (n :: rest).map (fun n => n.id) ↔ k ∈ rest.map (fun n => n.id) := by
              simp [hk]
            rw [List.map_cons]
            rw [if_neg (by rw [List.mem_cons]; rintro (h | h); exact hk h; exact hmem h)]
      · intro k'
        by_cases hk' : k' = n.id
        · subst hk'
          rw [mapSet_lookup_self]
          exact Or.inr rfl
        · rw [mapSet_lookup_other _ _ _ _ hk']
          exact hm k'
  have base : ∀ k', ([] : List (String × List String)).lookup k' = none ∨
      ([] : List (String × List String)).lookup k' = some [] := fun _ => Or.inl rfl
  have h := go nodes [] base
  unfold adjInit
  rw [h]
  by_cases hmem : k ∈ nodes.map (fun n => n.id) <;> simp [hmem]

theorem adjPush_of_none (m : List (String × List String)) (k v : String)
    (h : m.lookup k = none) : adjPush m k v = m := by
  induction m with
  | nil => rfl
  | cons p rest ih =>
    obtain ⟨k0, vs⟩ := p
    by_cases h0 : k0 = k
    · subst h0
      simp [List.lookup_cons] at h
    · rw [List.lookup_cons] at h
      have hkk : (k == k0) = false := by simp [Ne.symm h0]
      rw [hkk] at h
      simp [adjPush, h0, ih h]

theorem adjPush_lookup_self (m : List (String × List String)) (k v : String) (vs : List String)
    (h : m.lookup k = some vs) :
    (adjPush m k v).lookup k = some (vs ++ [v]) := by
  induction m with
  | nil => simp at h
  | cons p rest ih =>
    obtain ⟨k0, vs0⟩ := p
    by_cases h0 : k0 = k
    · subst h0
      rw [List.lookup_cons_self] at h
      injection h with h
      subst h
      simp [adjPush]
    · have hkk : (k == k0) = false := by simp [Ne.symm h0]
      rw [List.lookup_cons, hkk] at h
      simp [adjPush, h0, List.lookup_cons, hkk, ih h]

theorem adjPush_lookup_other (m : List (String × List String)) (k v k' : String)
    (h : k' ≠ k) :
    (adjPush m k v).lookup k' = m.lookup k' := by
  induction m with
  | nil => rfl
  | cons p rest ih =>
    obtain ⟨k0, vs0⟩ := p
    by_cases h0 : k0 = k
    · subst h0
      have hkk : (k' == k0) = false := by simp [h]
      simp [adjPush, List.lookup_cons, hkk]
    · simp [adjPush, h0, List.lookup_cons, ih]

theorem adjPush_isSome (m : List (String × List String)) (k v k' : String) :
    ((adjPush m k v).lookup k').isSome = (m.lookup k').isSome := by
  by_cases h : k' = k
  · subst h
    cases hm : m.lookup k' with
    | none => rw [adjPush_of_none _ _ _ hm, hm]
    | some vs =>
      rw [adjPush_lookup_self _ _ _ _ hm]
      rfl
  · rw [adjPush_lookup_other _ _ _ _ h]

/-- Adjacency after one `adjPush`: membership in a neighbour list grows by
exactly the pushed pair when the key is present. -/
theorem adjPush_mem (m : List (String × List String)) (k v x y : String) :
    y ∈ ((adjPush m k v).lookup x).getD [] ↔
      y ∈ (m.lookup x).getD [] ∨ (x = k ∧ y = v ∧ (m.lookup k).isSome) := by
  by_cases hx : x = k
  · subst hx
    cases hm : m.lookup x with
    | none => rw [adjPush_of_none _ _ _ hm, hm]; simp [hm]
    | some vs =>
      rw [adjPush_lookup_self _ _ _ _ hm]
      simp [List.mem_append]
  · rw [adjPush_lookup_other _ _ _ _ hx]
    simp [hx]

theorem adjBuild_isSome (nodes : List EnhancedNode) (links : List EnhancedLinkV2)
    (k : String) :
    ((adjBuild nodes links).lookup k).isSome
      = ((adjInit nodes).lookup k).isSome := by
  have go : ∀ (ls : List EnhancedLinkV2) (m : List (String × List String)),
      ((ls.foldl (fun m l => adjPush (adjPush m l.source l.target) l.target l.source) m).lookup
          k).isSome = (m.lookup k).isSome := by
    intro ls
    induction ls with
    | nil => intro m; rfl
    | cons l rest ih =>
      intro m
      rw [List.foldl_cons, ih, adjPush_isSome, adjPush_isSome]
  exact go links (adjInit nodes)

/-- The adjacency built from the displayed links realizes exactly the
undirected link relation, provided every link endpoint is a node id. -/
theorem adjBuild_mem (nodes : List EnhancedNode) (links : List EnhancedLinkV2)
    (hend : ∀ l ∈ links, l.source ∈ nodes.map (fun n => n.id)
      ∧ l.target ∈ nodes.map (fun n => n.id)) (x y : String) :
    nbrRel (adjBuild nodes links) x y ↔ linkRel links x y := by
  have hkey : ∀ (ls : List EnhancedLinkV2) (m : List (String × List String)) (k : String),
      ((ls.foldl (fun m l => adjPush (adjPush m l.source l.target) l.target l.source) m).lookup
          k).isSome = (m.lookup k).isSome := by
    intro ls
    induction ls with
    | nil => intro m k; rfl
    | cons l rest ih =>
      intro m k
      rw [List.foldl_cons, ih, adjPush_isSome, adjPush_isSome]
  have go : ∀ (ls : List EnhancedLinkV2) (m : List (String × List String)),
      (∀ k, ((m.lookup k).isSome) = ((adjInit nodes).lookup k).isSome) →
      (∀ l ∈ ls, l.source ∈ nodes.map (fun n => n.id) ∧ l.target ∈ nodes.map (fun n => n.id)) →
      ∀ x y,
        (y ∈ ((ls.foldl (fun m l => adjPush (adjPush m l.source l.target) l.target l.source)
            m).lookup x).getD [] ↔
          y ∈ (m.lookup x).getD [] ∨ linkRel ls x y) := by
    intro ls
    induction ls with
    | nil =>
      intro m _ _ x y
      simp [linkRel]
    | cons l rest ih =>
      intro m hm hends x y
      have hsrc : ((m.lookup l.source).isSome) = true := by
        rw [hm, adjInit_lookup]
        simp [(hends l (List.mem_cons_self _ _)).1]
      have htgt : ((m.lookup l.target).isSome) = true := by
        rw [hm, adjInit_lookup]
        simp [(hends l (List.mem_cons_self _ _)).2]
      have hsrc2 : ((adjPush m l.source l.target).lookup l.target).isSome = true := by
        rw [adjPush_isSome]
        exact htgt
      have hlcons : linkRel (l :: rest) x y ↔
          ((l.source = x ∧ l.target = y) ∨ (l.source = y ∧ l.target = x))
          ∨ linkRel rest x y := by
        unfold linkRel
        constructor
        · rintro ⟨l', hl', hc⟩
          rcases List.mem_cons.mp hl' with rfl | h
          · exact Or.inl hc
          · exact Or.inr ⟨l', h, hc⟩
        · rintro (hc | ⟨l', h, hc⟩)
          · exact ⟨l, List.mem_cons_self _ _, hc⟩
          · exact ⟨l', List.mem_cons_of_mem _ h, hc⟩
      rw [List.foldl_cons]
      rw [ih _ (fun k => by rw [adjPush_isSome, adjPush_isSome]; exact hm k)
        (fun l' hl' => hends l' (List.mem_cons_of_mem _ hl'))]
      rw [adjPush_mem, adjPush_mem, hlcons]
      constructor
      · rintro (((h | ⟨hx, hy, _⟩) | ⟨hx, hy, _⟩) | h)
        · exact Or.inl h
        · exact Or.inr (Or.inl (Or.inl ⟨hx.symm, hy.symm⟩))
        · exact Or.inr (Or.inl (Or.inr ⟨hy.symm, hx.symm⟩))
        · exact Or.inr (Or.inr h)
      · rintro (h | ((⟨hx, hy⟩ | ⟨hx, hy⟩) | h))
        · exact Or.inl (Or.inl (Or.inl h))
        · exact Or.inl (Or.inl (Or.inr ⟨hx.symm, hy.symm, hsrc⟩))
        · exact Or.inl (Or.inr ⟨hy.symm, hx.symm, hsrc2⟩)
        · exact Or.inr h
  have h := go links (adjInit nodes) (fun k => rfl) hend x y
  unfold nbrRel adjBuild
  rw [h, adjInit_lookup]
  by_cases hmem : x ∈ nodes.map (fun n => n.id) <;> simp [hmem]

/-! ### BFS loop correctness -/

theorem not_mem_keys_of_lookup_none {α : Type} {m : List (String × α)} {k : String}
    (h : m.lookup k = none) : k ∉ m.map Prod.fst := by
  rw [List.lookup_eq_none_iff] at h
  intro hmem
  obtain ⟨p, hp, hfst⟩ := List.mem_map.mp hmem
  have hne := h p hp
  rw [hfst] at hne
  simp at hne

theorem lookup_isSome_iff_mem_keys {α : Type} {m : List (String × α)} {k : String} :
    (m.lookup k).isSome ↔ k ∈ m.map Prod.fst := by
  rw [List.lookup_isSome_iff]
  constructor
  · rintro ⟨p, hp, hbeq⟩
    rw [beq_iff_eq] at hbeq
    rw [hbeq]
    exact List.mem_map_of_mem _ hp
  · intro hmem
    obtain ⟨p, hp, hfst⟩ := List.mem_map.mp hmem
    exact ⟨p, hp, by simp [hfst]⟩

theorem lookup_mem_of_eq_some {α : Type} {m : List (String × α)} {k : String} {v : α}
    (h : m.lookup k = some v) : (k, v) ∈ m := by
  obtain ⟨l₁, l₂, heq, _⟩ := List.lookup_eq_some_iff.mp h
  rw [heq]
  exact List.mem_append.mpr (Or.inr (List.mem_cons_self _ _))

theorem keys_map_pair (cid : Nat) (l : List String) :
    (l.map (fun k => (k, cid))).map Prod.fst = l := by
  rw [List.map_map]
  have : (l.map (Prod.fst ∘ fun k => (k, cid))) = l.map (fun k => k) :=
    List.map_congr_left (fun a _ => rfl)
  rw [this]
  exact List.map_id' l

theorem length_le_card_of_subset {l ul : List String} (hn : l.Nodup)
    (hsub : ∀ x ∈ l, x ∈ ul) : l.length ≤ ul.toFinset.card := by
  rw [← List.toFinset_card_of_nodup hn]
  apply Finset.card_le_card
  intro x hx
  rw [List.mem_toFinset] at hx
  rw [List.mem_toFinset]
  exact hsub x hx

/-- The inner neighbour fold of one BFS iteration appends one community entry
and one queue element per first-seen unassigned neighbour. -/
theorem nbrFold_spec (cid : Nat) :
    ∀ (ns : List String) (comm : List (String × Nat)) (queue : List String),
      ∃ added : List String,
        ns.foldl (fun (p : List (String × Nat) × List String) nbr =>
            if (p.1.lookup nbr).isSome then p else (p.1 ++ [(nbr, cid)], p.2 ++ [nbr]))
          (comm, queue)
          = (comm ++ added.map (fun k => (k, cid)), queue ++ added)
        ∧ added.Nodup
        ∧ (∀ k, k ∈ added ↔ k ∈ ns ∧ comm.lookup k = none) := by
  intro ns
  induction ns with
  | nil =>
    intro comm queue
    exact ⟨[], by simp, List.nodup_nil, by simp⟩
  | cons n rest ih =>
    intro comm queue
    rw [List.foldl_cons]
    dsimp only
    by_cases hn : (comm.lookup n).isSome
    · rw [if_pos hn]
      obtain ⟨added, heq, hnd, hch⟩ := ih comm queue
      refine ⟨added, heq, hnd, fun k => ?_⟩
      rw [hch k]
      constructor
      · rintro ⟨h1, h2⟩
        exact ⟨List.mem_cons_of_mem _ h1, h2⟩
      · rintro ⟨h1, h2⟩
        rcases List.mem_cons.mp h1 with rfl | h1'
        · rw [h2] at hn
          simp at hn
        · exact ⟨h1', h2⟩
    · rw [if_neg hn]
      obtain ⟨added, heq, hnd, hch⟩ := ih (comm ++ [(n, cid)]) (queue ++ [n])
      have hlookn : (comm ++ [(n, cid)]).lookup n = some cid := by
        rw [List.lookup_append, Option.not_isSome_iff_eq_none.mp hn]
        simp
      refine ⟨n :: added, ?_, ?_, fun k => ?_⟩
      · rw [heq]
        simp [List.append_assoc]
      · rw [List.nodup_cons]
        refine ⟨?_, hnd⟩
        intro hmem
        have := (hch n).mp hmem
        rw [hlookn] at this
        exact absurd this.2 (by simp)
      · constructor
        · intro hmem
          rcases List.mem_cons.mp hmem with rfl | hmem'
          · exact ⟨List.mem_cons_self _ _, Option.not_isSome_iff_eq_none.mp hn⟩
          · have h := (hch k).mp hmem'
            have hk : k ≠ n := by
              rintro rfl
              rw [hlookn] at h
              exact absurd h.2 (by simp)
            have hke : (comm ++ [(n, cid)]).lookup k = comm.lookup k := by
              rw [List.lookup_append]
              have hbeq : (k == n) = false := by simp [hk]
              have hnone : ([(n, cid)] : List (String × Nat)).lookup k = none := by
                rw [List.lookup_cons, hbeq]
                rfl
              rw [hnone, Option.or_none]
            rw [hke] at h
            exact ⟨List.mem_cons_of_mem _ h.1, h.2⟩
        · rintro ⟨h1, h2⟩
          rcases List.mem_cons.mp h1 with rfl | h1'
          · exact List.mem_cons_self _ _
          · by_cases hk : k = n
            · subst hk
              exact List.mem_cons_self _ _
            · apply List.mem_cons_of_mem
              apply (hch k).mpr
              refine ⟨h1', ?_⟩
              rw [List.lookup_append, h2]
              have hbeq : (k == n) = false := by simp [hk]
              rw [Option.none_or, List.lookup_cons, hbeq]
              rfl

/-- The BFS work-loop invariant: starting from a queue of freshly assigned
keys, with enough fuel the loop terminates with the queue empty, having
appended exactly reachable keys with the current community id, keeping the map
keys duplicate-free and the appended region adjacency-closed. -/
theorem bfsLoop_go (adj : List (String × List String)) (cid : Nat)
    (hnbrU : ∀ x y, nbrRel adj x y → y ∈ adjIds adj)
    (commPrev : List (String × Nat)) (s : String) :
    ∀ (fuel : Nat) (queue : List String) (newPart : List (String × Nat)),
      2 * ((adjIds adj).toFinset.card - ((commPrev ++ newPart).map Prod.fst).length)
          + queue.length < fuel →
      ((commPrev ++ newPart).map Prod.fst).Nodup →
      (∀ k ∈ (commPrev ++ newPart).map Prod.fst, k ∈ adjIds adj) →
      (∀ p ∈ newPart, p.2 = cid) →
      (∀ q ∈ queue, q ∈ newPart.map Prod.fst) →
      (∀ k ∈ newPart.map Prod.fst, Relation.ReflTransGen (nbrRel adj) s k) →
      (∀ k ∈ newPart.map Prod.fst, k ∉ queue →
        ∀ y, nbrRel adj k y → y ∈ (commPrev ++ newPart).map Prod.fst) →
      ∃ newPart',
        bfsLoop adj cid fuel queue (commPrev ++ newPart)
          = commPrev ++ (newPart ++ newPart')
        ∧ (∀ p ∈ newPart ++ newPart', p.2 = cid)
        ∧ ((commPrev ++ (newPart ++ newPart')).map Prod.fst).Nodup
        ∧ (∀ k ∈ (commPrev ++ (newPart ++ newPart')).map Prod.fst, k ∈ adjIds adj)
        ∧ (∀ k ∈ (newPart ++ newPart').map Prod.fst,
            Relation.ReflTransGen (nbrRel adj) s k)
        ∧ (∀ k ∈ (newPart ++ newPart').map Prod.fst,
            ∀ y, nbrRel adj k y → y ∈ (commPrev ++ (newPart ++ newPart')).map Prod.fst) := by
  intro fuel
  induction fuel with
  | zero =>
    intro queue newPart hfuel
    exact absurd hfuel (Nat.not_lt_zero _)
  | succ fuel ih =>
    intro queue newPart hfuel hnodup hsubU hcid hqueue hreach hclosed
    cases queue with
    | nil =>
      refine ⟨[], by simp [bfsLoop], ?_, ?_, ?_, ?_, ?_⟩
      · simpa using hcid
      · simpa using hnodup
      · simpa using hsubU
      · simpa using hreach
      · intro k hk y hy
        simp only [List.append_nil] at hk ⊢
        exact hclosed k hk (by simp) y hy
    | cons current rest =>
      have hcur : current ∈ newPart.map Prod.fst := hqueue current (List.mem_cons_self _ _)
      obtain ⟨added, hstep, hand, hach⟩ :=
        nbrFold_spec cid ((adj.lookup current).getD []) (commPrev ++ newPart) rest
      have hunfold : bfsLoop adj cid (fuel + 1) (current :: rest) (commPrev ++ newPart)
          = bfsLoop adj cid fuel (rest ++ added)
              ((commPrev ++ newPart) ++ added.map (fun k => (k, cid))) := by
        show bfsLoop adj cid fuel
            (((adj.lookup current).getD []).foldl
              (fun (p : List (String × Nat) × List String) nbr =>
                if (p.1.lookup nbr).isSome then p else (p.1 ++ [(nbr, cid)], p.2 ++ [nbr]))
              (commPrev ++ newPart, rest)).2
            (((adj.lookup current).getD []).foldl
              (fun (p : List (String × Nat) × List String) nbr =>
                if (p.1.lookup nbr).isSome then p else (p.1 ++ [(nbr, cid)], p.2 ++ [nbr]))
              (commPrev ++ newPart, rest)).1
          = _
        rw [hstep]
      have hadded_nbr : ∀ k ∈ added, nbrRel adj current k := by
        intro k hk
        exact ((hach k).mp hk).1
      have hadded_new : ∀ k ∈ added, k ∉ (commPrev ++ newPart).map Prod.fst := by
        intro k hk
        exact not_mem_keys_of_lookup_none ((hach k).mp hk).2
      have hkeys2 : (commPrev ++ (newPart ++ added.map (fun k => (k, cid)))).map Prod.fst
          = (commPrev ++ newPart).map Prod.fst ++ added := by
        rw [← List.append_assoc, List.map_append, keys_map_pair]
      have hnodup2 : ((commPrev ++ (newPart ++ added.map (fun k => (k, cid)))).map
          Prod.fst).Nodup := by
        rw [hkeys2, List.nodup_append]
        exact ⟨hnodup, hand, fun x hx hx2 => hadded_new x hx2 hx⟩
      have hsubU2 : ∀ k ∈ (commPrev ++ (newPart ++ added.map (fun k => (k, cid)))).map
          Prod.fst, k ∈ adjIds adj := by
        rw [hkeys2]
        intro k hk
        rcases List.mem_append.mp hk with h | h
        · exact hsubU k h
        · exact hnbrU current k (hadded_nbr k h)
      have hnewkeys : (newPart ++ added.map (fun k => (k, cid))).map Prod.fst
          = newPart.map Prod.fst ++ added := by
        rw [List.map_append, keys_map_pair]
      have hcid2 : ∀ p ∈ newPart ++ added.map (fun k => (k, cid)), p.2 = cid := by
        intro p hp
        rcases List.mem_append.mp hp with h | h
        · exact hcid p h
        · obtain ⟨k, _, rfl⟩ := List.mem_map.mp h
          rfl
      have hqueue2 : ∀ q ∈ rest ++ added,
          q ∈ (newPart ++ added.map (fun k => (k, cid))).map Prod.fst := by
        rw [hnewkeys]
        intro q hq
        rcases List.mem_append.mp hq with h | h
        · exact List.mem_append.mpr (Or.inl (hqueue q (List.mem_cons_of_mem _ h)))
        · exact List.mem_append.mpr (Or.inr h)
      have hreach2 : ∀ k ∈ (newPart ++ added.map (fun k => (k, cid))).map Prod.fst,
          Relation.ReflTransGen (nbrRel adj) s k := by
        rw [hnewkeys]
        intro k hk
        rcases List.mem_append.mp hk with h | h
        · exact hreach k h
        · exact Relation.ReflTransGen.tail (hreach current hcur) (hadded_nbr k h)
      have hclosed2 : ∀ k ∈ (newPart ++ added.map (fun k => (k, cid))).map Prod.fst,
          k ∉ rest ++ added →
          ∀ y, nbrRel adj k y →
            y ∈ (commPrev ++ (newPart ++ added.map (fun k => (k, cid)))).map Prod.fst := by
        rw [hnewkeys, hkeys2]
        intro k hk hnq y hy
        rcases List.mem_append.mp hk with h | h
        · by_cases hkc : k = current
          · subst hkc
            have hyn : y ∈ ((adj.lookup k).getD []) := hy
            by_cases hylook : ((commPrev ++ newPart).lookup y).isSome
            · exact List.mem_append.mpr
                (Or.inl (lookup_isSome_iff_mem_keys.mp hylook))
            · have : y ∈ added := (hach y).mpr
                ⟨hyn, Option.not_isSome_iff_eq_none.mp hylook⟩
              exact List.mem_append.mpr (Or.inr this)
          · have hknq : k ∉ current :: rest := by
              rw [List.mem_cons]
              rintro (h' | h')
              · exact hkc h'
              · exact hnq (List.mem_append.mpr (Or.inl h'))
            exact List.mem_append.mpr
              (Or.inl (hclosed k h hknq y hy))
        · exact absurd (List.mem_append.mpr (Or.inr h)) hnq
      have hfuel2 : 2 * ((adjIds adj).toFinset.card
            - ((commPrev ++ (newPart ++ added.map (fun k => (k, cid)))).map Prod.fst).length)
          + (rest ++ added).length < fuel := by
        have hlen2 : ((commPrev ++ (newPart ++ added.map (fun k => (k, cid)))).map
            Prod.fst).length = ((commPrev ++ newPart).map Prod.fst).length + added.length := by
          rw [hkeys2, List.length_append]
        have hle := length_le_card_of_subset hnodup2 hsubU2
        rw [hlen2] at hle
        rw [hlen2, List.length_append]
        rw [List.length_cons] at hfuel
        omega
      obtain ⟨newPart', hres, hcid', hnd', hsub', hreach', hclosed'⟩ :=
        ih (rest ++ added) (newPart ++ added.map (fun k => (k, cid)))
          hfuel2 hnodup2 hsubU2 hcid2 hqueue2 hreach2 hclosed2
      have hassoc : (newPart ++ added.map (fun k => (k, cid))) ++ newPart'
          = newPart ++ (added.map (fun k => (k, cid)) ++ newPart') := by
        rw [List.append_assoc]
      refine ⟨added.map (fun k => (k, cid)) ++ newPart', ?_, ?_, ?_, ?_, ?_, ?_⟩
      · rw [hunfold]
        rw [show (commPrev ++ newPart) ++ added.map (fun k => (k, cid))
            = commPrev ++ (newPart ++ added.map (fun k => (k, cid)))
          from List.append_assoc _ _ _]
        rw [hres, hassoc]
      · rw [← hassoc]
        exact hcid'
      · rw [← hassoc]
        exact hnd'
      · rw [← hassoc]
        exact hsub'
      · rw [← hassoc]
        exact hreach'
      · rw [← hassoc]
        exact hclosed'

theorem nbr_mem_adjIds (adj : List (String × List String)) :
    ∀ x y, nbrRel adj x y → y ∈ adjIds adj := by
  intro x y h
  unfold nbrRel at h
  cases hx : adj.lookup x with
  | none => rw [hx] at h; simp at h
  | some vs =>
    rw [hx] at h
    simp only [Option.getD_some] at h
    unfold adjIds
    apply List.mem_append.mpr
    right
    exact List.mem_flatten.mpr
      ⟨vs, List.mem_map_of_mem (fun e => e.2) (lookup_mem_of_eq_some hx), h⟩

theorem reach_closed {adj : List (String × List String)} {keys : List String}
    (hcl : ∀ k ∈ keys, ∀ y, nbrRel adj k y → y ∈ keys) {x y : String}
    (hx : x ∈ keys) (h : Relation.ReflTransGen (nbrRel adj) x y) : y ∈ keys := by
  induction h with
  | refl => exact hx
  | tail _ h2 ih => exact hcl _ ih _ h2

/-- One full BFS call: with the standard fuel it assigns the current id to
exactly the keys reachable from the seed, preserving everything before. -/
theorem bfs_call_spec (adj : List (String × List String)) (cid : Nat)
    (hsym : ∀ x y, nbrRel adj x y → nbrRel adj y x)
    (commPrev : List (String × Nat)) (s : String)
    (hsU : s ∈ adjIds adj)
    (hsnew : s ∉ commPrev.map Prod.fst)
    (hnodup : (commPrev.map Prod.fst).Nodup)
    (hsubU : ∀ k ∈ commPrev.map Prod.fst, k ∈ adjIds adj)
    (hprevClosed : ∀ k ∈ commPrev.map Prod.fst, ∀ y, nbrRel adj k y →
      y ∈ commPrev.map Prod.fst) :
    ∃ newFinal : List (String × Nat),
      bfsLoop adj cid (2 * (adjIds adj).length + 2) [s] (commPrev ++ [(s, cid)])
        = commPrev ++ newFinal
      ∧ (∀ p ∈ newFinal, p.2 = cid)
      ∧ ((commPrev ++ newFinal).map Prod.fst).Nodup
      ∧ (∀ k ∈ (commPrev ++ newFinal).map Prod.fst, k ∈ adjIds adj)
      ∧ (∀ k, k ∈ newFinal.map Prod.fst ↔ Relation.ReflTransGen (nbrRel adj) s k) := by
  have hkeys1 : (commPrev ++ [(s, cid)]).map Prod.fst = commPrev.map Prod.fst ++ [s] := by
    rw [List.map_append]
    rfl
  have hnodup1 : ((commPrev ++ [(s, cid)]).map Prod.fst).Nodup := by
    rw [hkeys1, List.nodup_append]
    refine ⟨hnodup, List.nodup_singleton _, ?_⟩
    intro x hx hx1
    rw [List.mem_singleton] at hx1
    exact hsnew (hx1 ▸ hx)
  have hsubU1 : ∀ k ∈ (commPrev ++ [(s, cid)]).map Prod.fst, k ∈ adjIds adj := by
    rw [hkeys1]
    intro k hk
    rcases List.mem_append.mp hk with h | h
    · exact hsubU k h
    · rw [List.mem_singleton] at h
      exact h ▸ hsU
  have hfuel : 2 * ((adjIds adj).toFinset.card
        - ((commPrev ++ [(s, cid)]).map Prod.fst).length)
      + ([s] : List String).length < 2 * (adjIds adj).length + 2 := by
    have hcard := List.toFinset_card_le (adjIds adj)
    simp only [List.length_singleton]
    omega
  obtain ⟨newPart', hres, hcid', hnd', hsub', hreach', hclosed'⟩ :=
    bfsLoop_go adj cid (nbr_mem_adjIds adj) commPrev s
      (2 * (adjIds adj).length + 2) [s] [(s, cid)]
      hfuel hnodup1 hsubU1
      (by intro p hp; rw [List.mem_singleton] at hp; rw [hp])
      (by intro q hq; rw [List.mem_singleton] at hq; subst hq; exact List.mem_cons_self _ _)
      (by
        intro k hk
        have : k = s := by simpa using hk
        subst this
        exact Relation.ReflTransGen.refl)
      (by
        intro k hk hknq
        exfalso
        apply hknq
        have : k = s := by simpa using hk
        rw [this]
        exact List.mem_cons_self _ _)
  refine ⟨(s, cid) :: newPart', by simpa using hres, by simpa using hcid',
    by simpa using hnd', by simpa using hsub', ?_⟩
  have hkeysn : ((s, cid) :: newPart').map Prod.fst
      = ([(s, cid)] ++ newPart').map Prod.fst := rfl
  intro k
  constructor
  · intro hk
    apply hreach' k
    simpa using hk
  · intro hk
    have hdisj : ∀ x, x ∈ ([(s, cid)] ++ newPart').map Prod.fst →
        x ∉ commPrev.map Prod.fst := by
      have h := hnd'
      rw [List.map_append, List.nodup_append] at h
      intro x hx hx2
      exact h.2.2 hx2 hx
    have hin : k ∈ ([(s, cid)] ++ newPart').map Prod.fst := by
      induction hk with
      | refl => simp
      | tail h1 h2 ih =>
        rename_i b c
        have hbmem := ih
        have hc := hclosed' b hbmem c h2
        rw [List.map_append] at hc
        rcases List.mem_append.mp hc with h | h
        · exfalso
          have hbprev := hprevClosed c h b (hsym _ _ h2)
          exact hdisj b hbmem hbprev
        · exact h
    simpa using hin

/-- The outer loop of community detection: it preserves the already-assigned
map, assigns an id to every remaining node, and keeps the equal-id ↔
mutually-reachable characterization. -/
theorem detectAux_spec (adj : List (String × List String))
    (hsym : ∀ x y, nbrRel adj x y → nbrRel adj y x) :
    ∀ (ns : List EnhancedNode) (cid : Nat) (comm : List (String × Nat)),
      (comm.map Prod.fst).Nodup →
      (∀ k ∈ comm.map Prod.fst, k ∈ adjIds adj) →
      (∀ k ∈ comm.map Prod.fst, ∀ y, nbrRel adj k y → y ∈ comm.map Prod.fst) →
      (∀ p ∈ comm, p.2 < cid) →
      (∀ x y cx cy, comm.lookup x = some cx → comm.lookup y = some cy →
        (cx = cy ↔ Relation.ReflTransGen (nbrRel adj) x y)) →
      (∀ n ∈ ns, n.id ∈ adjIds adj) →
      ∃ (comm' : List (String × Nat)) (cid' : Nat),
        detectCommunitiesAux adj (2 * (adjIds adj).length + 2) ns cid comm = comm'
        ∧ (comm'.map Prod.fst).Nodup
        ∧ (∀ k ∈ comm'.map Prod.fst, k ∈ adjIds adj)
        ∧ (∀ k ∈ comm'.map Prod.fst, ∀ y, nbrRel adj k y → y ∈ comm'.map Prod.fst)
        ∧ (∀ p ∈ comm', p.2 < cid')
        ∧ (∀ x y cx cy, comm'.lookup x = some cx → comm'.lookup y = some cy →
            (cx = cy ↔ Relation.ReflTransGen (nbrRel adj) x y))
        ∧ (∀ n ∈ ns, ((comm'.lookup n.id).isSome))
        ∧ (∀ x, (comm.lookup x).isSome → comm'.lookup x = comm.lookup x) := by
  intro ns
  induction ns with
  | nil =>
    intro cid comm h1 h2 h3 h4 h5 _
    exact ⟨comm, cid, rfl, h1, h2, h3, h4, h5, by simp, fun _ _ => rfl⟩
  | cons node rest ih =>
    intro cid comm h1 h2 h3 h4 h5 hids
    have hrest_ids : ∀ n ∈ rest, n.id ∈ adjIds adj :=
      fun n hn => hids n (List.mem_cons_of_mem _ hn)
    by_cases hmem : (comm.lookup node.id).isSome
    · have hstep0 : detectCommunitiesAux adj (2 * (adjIds adj).length + 2) (node :: rest)
          cid comm
          = if (comm.lookup node.id).isSome then
              detectCommunitiesAux adj (2 * (adjIds adj).length + 2) rest cid comm
            else
              detectCommunitiesAux adj (2 * (adjIds adj).length + 2) rest (cid + 1)
                (bfsLoop adj cid (2 * (adjIds adj).length + 2) [node.id]
                  (comm ++ [(node.id, cid)])) := by
        simp only [detectCommunitiesAux]
      have hstep : detectCommunitiesAux adj (2 * (adjIds adj).length + 2) (node :: rest)
          cid comm
          = detectCommunitiesAux adj (2 * (adjIds adj).length + 2) rest cid comm := by
        rw [hstep0, if_pos hmem]
      obtain ⟨comm', cid', hres, p1, p2, p3, p4, p5, p6, p7⟩ :=
        ih cid comm h1 h2 h3 h4 h5 hrest_ids
      refine ⟨comm', cid', hstep.trans hres, p1, p2, p3, p4, p5, ?_, p7⟩
      intro n hn
      rcases List.mem_cons.mp hn with rfl | hn'
      · rw [p7 n.id hmem]
        exact hmem
      · exact p6 n hn'
    · have hnone : comm.lookup node.id = none := Option.not_isSome_iff_eq_none.mp hmem
      have hsnew : node.id ∉ comm.map Prod.fst := not_mem_keys_of_lookup_none hnone
      have hstep0 : detectCommunitiesAux adj (2 * (adjIds adj).length + 2) (node :: rest)
          cid comm
          = if (comm.lookup node.id).isSome then
              detectCommunitiesAux adj (2 * (adjIds adj).length + 2) rest cid comm
            else
              detectCommunitiesAux adj (2 * (adjIds adj).length + 2) rest (cid + 1)
                (bfsLoop adj cid (2 * (adjIds adj).length + 2) [node.id]
                  (comm ++ [(node.id, cid)])) := by
        simp only [detectCommunitiesAux]
      have hstep : detectCommunitiesAux adj (2 * (adjIds adj).length + 2) (node :: rest)
          cid comm
          = detectCommunitiesAux adj (2 * (adjIds adj).length + 2) rest (cid + 1)
              (bfsLoop adj cid (2 * (adjIds adj).length + 2) [node.id]
                (comm ++ [(node.id, cid)])) := by
        rw [hstep0, if_neg hmem]
      obtain ⟨newFinal, hbfs, hvals, hnd1, hsub1, hiff1⟩ :=
        bfs_call_spec adj cid hsym comm node.id
          (hids node (List.mem_cons_self _ _)) hsnew h1 h2 h3
      rw [hbfs] at hstep
      set comm₁ := comm ++ newFinal with hcomm₁
      have hkeys₁ : comm₁.map Prod.fst = comm.map Prod.fst ++ newFinal.map Prod.fst := by
        rw [hcomm₁, List.map_append]
      have hdisj : ∀ x, x ∈ newFinal.map Prod.fst → x ∉ comm.map Prod.fst := by
        have h := hnd1
        rw [List.map_append, List.nodup_append] at h
        intro x hx hx2
        exact h.2.2 hx2 hx
      have hlook₁ : ∀ x, comm₁.lookup x = (comm.lookup x).or (newFinal.lookup x) := by
        intro x
        rw [hcomm₁, List.lookup_append]
      have hpres : ∀ x, (comm.lookup x).isSome → comm₁.lookup x = comm.lookup x := by
        intro x hx
        rw [hlook₁]
        obtain ⟨v, hv⟩ := Option.isSome_iff_exists.mp hx
        rw [hv]
        rfl
      have hnew_some : ∀ x, Relation.ReflTransGen (nbrRel adj) node.id x →
          comm₁.lookup x = some cid := by
        intro x hx
        have hxk : x ∈ newFinal.map Prod.fst := (hiff1 x).mpr hx
        have hxnc : comm.lookup x = none := by
          rcases hcx : comm.lookup x with _ | v
          · rfl
          · exfalso
            exact hdisj x hxk (lookup_isSome_iff_mem_keys.mp (by rw [hcx]; rfl))
        rw [hlook₁, hxnc, Option.none_or]
        have hs := lookup_isSome_iff_mem_keys.mpr hxk
        obtain ⟨v, hv⟩ := Option.isSome_iff_exists.mp hs
        rw [hv]
        exact congrArg some (hvals _ (lookup_mem_of_eq_some hv))
      have hval₁ : ∀ x cx, comm₁.lookup x = some cx →
          comm.lookup x = some cx
          ∨ (Relation.ReflTransGen (nbrRel adj) node.id x ∧ cx = cid
              ∧ comm.lookup x = none) := by
        intro x cx hx
        rw [hlook₁] at hx
        rcases hcx : comm.lookup x with _ | v
        · rw [hcx, Option.none_or] at hx
          refine Or.inr ⟨?_, ?_, rfl⟩
          · exact (hiff1 x).mp (lookup_isSome_iff_mem_keys.mp (by rw [hx]; rfl))
          · exact hvals _ (lookup_mem_of_eq_some hx)
        · rw [hcx] at hx
          have hx' : some v = some cx := hx
          exact Or.inl hx'
      have hclosed₁ : ∀ k ∈ comm₁.map Prod.fst, ∀ y, nbrRel adj k y →
          y ∈ comm₁.map Prod.fst := by
        intro k hk y hy
        rw [hkeys₁] at hk ⊢
        rcases List.mem_append.mp hk with h | h
        · exact List.mem_append.mpr (Or.inl (h3 k h y hy))
        · have hr := (hiff1 k).mp h
          exact List.mem_append.mpr
            (Or.inr ((hiff1 y).mpr (Relation.ReflTransGen.tail hr hy)))
      have hvalslt₁ : ∀ p ∈ comm₁, p.2 < cid + 1 := by
        intro p hp
        rcases List.mem_append.mp hp with h | h
        · exact Nat.lt_succ_of_lt (h4 p h)
        · rw [hvals p h]
          exact Nat.lt_succ_self _
      have hiff₁ : ∀ x y cx cy, comm₁.lookup x = some cx → comm₁.lookup y = some cy →
          (cx = cy ↔ Relation.ReflTransGen (nbrRel adj) x y) := by
        intro x y cx cy hx hy
        rcases hval₁ x cx hx with hxo | ⟨hxr, rfl, hxn⟩
        · rcases hval₁ y cy hy with hyo | ⟨hyr, rfl, hyn⟩
          · exact h5 x y cx cy hxo hyo
          · constructor
            · intro he
              exfalso
              have := h4 _ (lookup_mem_of_eq_some hxo)
              omega
            · intro hr
              exfalso
              have hxk : x ∈ comm.map Prod.fst :=
                lookup_isSome_iff_mem_keys.mp (by rw [hxo]; rfl)
              have := reach_closed h3 hxk hr
              exact not_mem_keys_of_lookup_none hyn this
        · rcases hval₁ y cy hy with hyo | ⟨hyr, hcy, hyn⟩
          · constructor
            · intro he
              exfalso
              have := h4 _ (lookup_mem_of_eq_some hyo)
              omega
            · intro hr
              exfalso
              have hyk : y ∈ comm.map Prod.fst :=
                lookup_isSome_iff_mem_keys.mp (by rw [hyo]; rfl)
              have := reach_closed h3 hyk
                (Relation.ReflTransGen.symmetric hsym hr)
              exact not_mem_keys_of_lookup_none hxn this
          · subst hcy
            constructor
            · intro _
              exact Relation.ReflTransGen.trans
                (Relation.ReflTransGen.symmetric hsym hxr) hyr
            · intro _
              rfl
      obtain ⟨comm', cid', hres, p1, p2, p3, p4, p5, p6, p7⟩ :=
        ih (cid + 1) comm₁ hnd1 hsub1 hclosed₁ hvalslt₁ hiff₁ hrest_ids
      refine ⟨comm', cid', hstep.trans hres, p1, p2, p3, p4, p5, ?_, ?_⟩
      · intro n hn
        rcases List.mem_cons.mp hn with rfl | hn'
        · have hsn : comm₁.lookup n.id = some cid :=
            hnew_some n.id Relation.ReflTransGen.refl
          rw [p7 n.id (by rw [hsn]; rfl), hsn]
          rfl
        · exact p6 n hn'
      · intro x hx
        rw [p7 x (by rw [hpres x hx]; exact hx), hpres x hx]

/-- C4: on a displayed graph (every link endpoint a node id), community
detection assigns every node exactly one group id; two nodes receive the same
group id iff they are connected by a path of displayed links treated as
undirected; and a node with no incident links shares its id with no other
node (singleton groups). -/
theorem C4_detect_communities :
    ∀ (nodes : List EnhancedNode) (links : List EnhancedLinkV2),
      (∀ l ∈ links, l.source ∈ nodes.map (fun n => n.id)
        ∧ l.target ∈ nodes.map (fun n => n.id)) →
      (∀ n ∈ nodes, ((detectCommunities nodes links).lookup n.id).isSome)
      ∧ (∀ n ∈ nodes, ∀ m ∈ nodes,
          ((detectCommunities nodes links).lookup n.id
              = (detectCommunities nodes links).lookup m.id
            ↔ connectedIn links n.id m.id))
      ∧ (∀ n ∈ nodes, (∀ l ∈ links, l.source ≠ n.id ∧ l.target ≠ n.id) →
          ∀ m ∈ nodes, m.id ≠ n.id →
            (detectCommunities nodes links).lookup m.id
              ≠ (detectCommunities nodes links).lookup n.id) := by
  intro nodes links hend
  have hnbr : ∀ x y, nbrRel (adjBuild nodes links) x y ↔ linkRel links x y :=
    adjBuild_mem nodes links hend
  have hsym : ∀ x y, nbrRel (adjBuild nodes links) x y → nbrRel (adjBuild nodes links) y x := by
    intro x y h
    rw [hnbr] at h
    rw [hnbr]
    obtain ⟨l, hl, hc⟩ := h
    rcases hc with ⟨h1, h2⟩ | ⟨h1, h2⟩
    · exact ⟨l, hl, Or.inr ⟨h1, h2⟩⟩
    · exact ⟨l, hl, Or.inl ⟨h1, h2⟩⟩
  have hids : ∀ n ∈ nodes, n.id ∈ adjIds (adjBuild nodes links) := by
    intro n hn
    unfold adjIds
    apply List.mem_append.mpr
    left
    apply lookup_isSome_iff_mem_keys.mp
    rw [adjBuild_isSome, adjInit_lookup]
    rw [if_pos (List.mem_map_of_mem (fun n => n.id) hn)]
    rfl
  have hreach_iff : ∀ x y,
      Relation.ReflTransGen (nbrRel (adjBuild nodes links)) x y ↔ connectedIn links x y := by
    intro x y
    unfold connectedIn
    exact ⟨Relation.ReflTransGen.mono (fun a b => (hnbr a b).mp),
      Relation.ReflTransGen.mono (fun a b => (hnbr a b).mpr)⟩
  obtain ⟨comm', cid', hres, p1, p2, p3, p4, p5, p6, p7⟩ :=
    detectAux_spec (adjBuild nodes links) hsym nodes 0 []
      (by simp) (by simp) (by simp) (by simp)
      (by intro x y cx cy hx; exact absurd hx (by simp))
      hids
  have hd : detectCommunities nodes links
      = detectCommunitiesAux (adjBuild nodes links)
          (2 * (adjIds (adjBuild nodes links)).length + 2) nodes 0 [] := rfl
  refine ⟨?_, ?_, ?_⟩
  · intro n hn
    rw [hd, hres]
    exact p6 n hn
  · intro n hn m hm
    obtain ⟨cn, hcn⟩ := Option.isSome_iff_exists.mp (p6 n hn)
    obtain ⟨cm, hcm⟩ := Option.isSome_iff_exists.mp (p6 m hm)
    rw [hd, hres, hcn, hcm]
    constructor
    · intro he
      injection he with he
      exact (hreach_iff _ _).mp ((p5 _ _ _ _ hcn hcm).mp he)
    · intro hc
      have := (p5 _ _ _ _ hcn hcm).mpr ((hreach_iff _ _).mpr hc)
      rw [this]
  · intro n hn hno m hm hne heq
    obtain ⟨cn, hcn⟩ := Option.isSome_iff_exists.mp (p6 n hn)
    obtain ⟨cm, hcm⟩ := Option.isSome_iff_exists.mp (p6 m hm)
    rw [hd, hres, hcn, hcm] at heq
    injection heq with heq
    have hcon := (hreach_iff _ _).mp ((p5 _ _ _ _ hcm hcn).mp heq)
    unfold connectedIn at hcon
    rcases Relation.ReflTransGen.cases_tail hcon with h | ⟨c, _, hc⟩
    · exact hne (h.symm)
    · obtain ⟨l, hl, hcc⟩ := hc
      rcases hcc with ⟨_, h2⟩ | ⟨h1, _⟩
      · exact (hno l hl).2 h2
      · exact (hno l hl).1 h1

theorem C4_detect_communities_witness :
    ((detectCommunities [⟨"A", "A", Sum.inl 2021, 0, "U", "T"⟩] []).lookup "A").isSome
      = true :=
  (C4_detect_communities [⟨"A", "A", Sum.inl 2021, 0, "U", "T"⟩] [] (by decide)).1
    ⟨"A", "A", Sum.inl 2021, 0, "U", "T"⟩ (by decide)

end CitationViz
